import Mathlib

/-!
Python/random.c: OS entropy acquisition and the hash secret

A shallow embedding of `Python/random.c` in the build configuration that is
neither `MS_WINDOWS` nor `PY_GETENTROPY`: the `getrandom()` syscall backend
(`py_getrandom`), the `/dev/urandom` backend with its descriptor cache
(`dev_urandom`, `dev_urandom_close`), the linear congruential generator
(`lcg_urandom`), the dispatcher `pyurandom` with its two public entry points,
and the hash-secret initialiser `_PyRandom_Init` / `_PyRandom_Fini`.

Conventions of the embedding.

* The static variables of the file (`getrandom_works`, `urandom_cache`,
  `_Py_HashSecret_Initialized`, the secret bytes), the C library's `errno` and
  the interpreter's error indicator are the fields of `State`.
* The operating system is a finite `Script` of responses.  Every call that
  reaches the OS (or the host runtime: `PyErr_CheckSignals`) consumes the next
  response and appends an `Event` to `State.trace`, recording the arguments the
  code passed and the response it got (`close`, whose result the code
  discards, and the lookup of the environment only append their event).  A
  function returns `none` exactly when the script ends before the C function
  would have returned.
* Buffers are addressed by byte offsets relative to the pointer handed to
  `pyurandom`; the bytes a `getrandom`/`read` call stores are read off the
  trace (`Event.writes`, `Event.store`).
* `Py_ssize_t`, `long`, `int` are `Int` (no operation of the file can overflow
  them on well-formed OS responses); `unsigned int` is `Nat` reduced modulo
  `2 ^ 32`; `unsigned long` is `Nat` bounded by the platform's `ULONG_MAX`.
* `Py_BEGIN_ALLOW_THREADS` / `Py_END_ALLOW_THREADS` (releasing the GIL around
  a call) have no sequential meaning and are left out.
-/

namespace PyRandom

/-! ## Constants of the C library and the kernel headers (Linux values) -/

def EPERM : Int := 1
def ENOENT : Int := 2
def EINTR : Int := 4
def ENXIO : Int := 6
def EAGAIN : Int := 11
def EACCES : Int := 13
def ENODEV : Int := 19
def ERANGE : Int := 34
def ENOSYS : Int := 38

/-- Flag of `getrandom()`: do not block when the entropy pool is not seeded. -/
def GRND_NONBLOCK : Int := 1

/-- Parameters of the platform and build that `random.c` takes from headers
which are not part of the file. -/
structure Platform where
  /-- The constant `LONG_MAX` of `<limits.h>`. -/
  LONG_MAX : Int
  /-- The constant `ULONG_MAX` of `<limits.h>`. -/
  ULONG_MAX : Nat
  /-- The size `sizeof(_Py_HashSecret_t)` of `pyhash.h`. -/
  secret_size : Nat
  /-- Whether `PY_GETRANDOM` is defined (`HAVE_GETRANDOM` or
  `HAVE_GETRANDOM_SYSCALL`). -/
  PY_GETRANDOM : Bool
  /-- Whether `sun` is defined (Solaris). -/
  sun : Bool
deriving DecidableEq, Repr

/-- The usual 64-bit Linux build. -/
def linux64 : Platform := ⟨9223372036854775807, 18446744073709551615, 24, true, false⟩

/-- A build whose `long` and `unsigned long` have 32 bits (a 32-bit Linux). -/
def long32 : Platform := ⟨2147483647, 4294967295, 24, true, false⟩

/-! ## The operating system as a script of responses -/

/-- What one call returns: the integer result, the `errno` it leaves on
failure, the identity `fstat` stores in `st`, and the bytes a transfer call
delivers (byte `k` of a transfer of `ret` bytes is `data[k]`, or `0` when
`data` is shorter). -/
structure OsResp where
  ret : Int
  errno : Int
  st_dev : Nat
  st_ino : Nat
  data : List Nat
deriving DecidableEq, Repr

abbrev Script := List OsResp

/-- A call that succeeds with result `n` (a count, a descriptor, or `0`). -/
def OsResp.ok (n : Int) : OsResp := ⟨n, 0, 0, 0, []⟩

/-- A call that fails with `-1` and the given `errno`. -/
def OsResp.fail (errno : Int) : OsResp := ⟨-1, errno, 0, 0, []⟩

/-- An `fstat` that succeeds and reports the given device and inode. -/
def OsResp.stat (dev ino : Nat) : OsResp := ⟨0, 0, dev, ino, []⟩

/-- A call issued by the code, with the arguments passed and the response
received.  Buffer pointers are byte offsets from the caller's buffer. -/
inductive Event where
  /-- The syscall `getrandom(dest, n, flags)`. -/
  | getrandom (dest n flags : Int) (r : OsResp)
  /-- The host runtime's `PyErr_CheckSignals()`. -/
  | checkSignals (r : OsResp)
  /-- The call `fstat(fd, &st)`, through `_Py_fstat` or `_Py_fstat_noraise`. -/
  | fstat (fd : Int) (r : OsResp)
  /-- The call `open("/dev/urandom", O_RDONLY)`, through `_Py_open` or
  `_Py_open_noraise`. -/
  | openUrandom (r : OsResp)
  /-- The call `read(fd, dest, n)`, directly or through `_Py_read`. -/
  | read (fd dest n : Int) (r : OsResp)
  /-- The call `close(fd)`; the code discards its result. -/
  | close (fd : Int)
  /-- The lookup `Py_GETENV("PYTHONHASHSEED")`. -/
  | getenv
deriving DecidableEq, Repr

/-- The interpreter's exceptions that the file can leave in the error
indicator. -/
inductive PyExc where
  | ValueError
  | OSError (errno : Int)
  | NotImplementedError
  | RuntimeError
  /-- Whatever exception a Python signal handler raised. -/
  | fromSignalHandler
deriving DecidableEq, Repr

/-- The static struct `urandom_cache`. -/
structure Cache where
  fd : Int
  st_dev : Nat
  st_ino : Nat
deriving DecidableEq, Repr

/-- The process-wide state the file reads and writes. -/
structure State where
  /-- The variable `static int getrandom_works` of `py_getrandom`. -/
  getrandom_works : Bool
  /-- The variable `static struct urandom_cache`. -/
  urandom_cache : Cache
  /-- The variable `int _Py_HashSecret_Initialized`. -/
  _Py_HashSecret_Initialized : Bool
  /-- The bytes of `_Py_HashSecret.uc`, which `_PyRandom_Init` calls `secret`. -/
  secret : List Nat
  /-- The C library's `errno`. -/
  errno : Int
  /-- The interpreter's error indicator (`PyErr_Occurred()`). -/
  exc : Option PyExc
  /-- The calls issued so far, oldest first. -/
  trace : List Event
deriving DecidableEq, Repr

/-- The state of a process in which no function of the file has run: the
static initialisers of the C file, a secret of `n` bytes with contents `sec`. -/
def State.initial (sec : List Nat) : State :=
  ⟨true, ⟨-1, 0, 0⟩, false, sec, 0, none, []⟩

/-- The events appended between state `s` and a later state `t`. -/
def newEvents (s t : State) : List Event := t.trace.drop s.trace.length

/-- Whether the call stored a byte at offset `i` of the caller's buffer: a
transfer that returned `ret > 0` at `dest` stored bytes `dest .. dest+ret-1`. -/
def Event.writes : Event → Int → Bool
  | .getrandom dest _ _ r, i => decide (0 < r.ret ∧ dest ≤ i ∧ i < dest + r.ret)
  | .read _ dest _ r, i => decide (0 < r.ret ∧ dest ≤ i ∧ i < dest + r.ret)
  | _, _ => false

/-- Whether the transfer call, if it succeeded, returned a count between one
and the count requested. -/
def Event.countOk : Event → Bool
  | .getrandom _ n _ r => decide (0 ≤ r.ret → 1 ≤ r.ret ∧ r.ret ≤ n)
  | .read _ _ n r => decide (0 ≤ r.ret → 1 ≤ r.ret ∧ r.ret ≤ n)
  | _ => true

/-- Some call of the list stored a byte at offset `i`. -/
def wrote (evs : List Event) (i : Int) : Bool := evs.any fun e => e.writes i

/-! ## `lcg_urandom` -/

/-- The loop of `lcg_urandom`; `k` is `size - index`, the iterations left. -/
def lcg_urandom.loop : Nat → Nat → Nat → List Nat → List Nat
  | 0, _, _, buffer => buffer
  | k + 1, index, x, buffer =>
    let x := (x * 214013) % 2 ^ 32
    let x := (x + 2531011) % 2 ^ 32
    lcg_urandom.loop k (index + 1) x (buffer.set index ((x >>> 16) &&& 0xff))

/-- Embedding of `lcg_urandom(unsigned int x0, unsigned char *buffer, size_t size)`;
returns the buffer after the call.  The argument is converted to
`unsigned int` on entry. -/
def lcg_urandom (x0 : Nat) (buffer : List Nat) (size : Nat) : List Nat :=
  lcg_urandom.loop size 0 (x0 % 2 ^ 32) buffer

/-- The recurrence as the specification words it:
`x_0 = x0`, `x_{k+1} = (x_k * 214013 + 2531011) mod 2^32`. -/
def lcgSeq (x0 : Nat) : Nat → Nat
  | 0 => x0
  | k + 1 => (lcgSeq x0 k * 214013 + 2531011) % 2 ^ 32

/-- The specification's `lcg(seed, length)`: byte `i` is bits 16..23 of
`x_{i+1}`. -/
def lcgBytes (x0 : Nat) (n : Nat) : List Nat :=
  (List.range n).map fun i => (lcgSeq x0 (i + 1) >>> 16) &&& 0xff

/-! ## Primitive calls

Each primitive takes the OS response its call receives and returns the C
return value with the state after the call. -/

/-- Record a call in the trace. -/
def State.log (s : State) (e : Event) : State :=
  { s with trace := s.trace ++ [e] }

/-- Record a call that sets `errno` when it fails. -/
def State.syscall (s : State) (r : OsResp) (e : Event) : State :=
  { s with errno := if r.ret < 0 then r.errno else s.errno, trace := s.trace ++ [e] }

/-- The syscall `getrandom(dest, n, flags)` (or `syscall(SYS_getrandom, ...)`). -/
def getrandom (dest n flags : Int) (r : OsResp) (s : State) : Int × State :=
  (r.ret, s.syscall r (.getrandom dest n flags r))

/-- The host runtime's `PyErr_CheckSignals()`: non-zero when a signal handler
raised an exception, which is then in the error indicator. -/
def PyErr_CheckSignals (r : OsResp) (s : State) : Int × State :=
  let s := s.log (.checkSignals r)
  (r.ret, if r.ret ≠ 0 then { s with exc := some .fromSignalHandler } else s)

/-- Modelled from the spec: `_Py_fstat_noraise` of `fileutils.c`, a file I/O
helper that is not part of `random.c`; it behaves as POSIX `fstat`: `0` and the
identity of the file on success, `-1` on failure, no exception. -/
def _Py_fstat_noraise (fd : Int) (r : OsResp) (s : State) : Int × State :=
  (r.ret, s.syscall r (.fstat fd r))

/-- Modelled from the spec: `_Py_fstat` of `fileutils.c`; as `_Py_fstat_noraise`
but a failure returns `-1` with `OSError` in the error indicator. -/
def _Py_fstat (fd : Int) (r : OsResp) (s : State) : Int × State :=
  let s := s.syscall r (.fstat fd r)
  if r.ret ≠ 0 then (-1, { s with exc := some (.OSError s.errno) }) else (0, s)

/-- Modelled from the spec: `_Py_open_noraise` of `fileutils.c`; POSIX `open`:
a descriptor, or `-1` with `errno` set, no exception. -/
def _Py_open_noraise (r : OsResp) (s : State) : Int × State :=
  let s := s.syscall r (.openUrandom r)
  (if r.ret < 0 then -1 else r.ret, s)

/-- Modelled from the spec: `_Py_open` of `fileutils.c`; as `_Py_open_noraise`
but a failure leaves `OSError` in the error indicator. -/
def _Py_open (r : OsResp) (s : State) : Int × State :=
  let s := s.syscall r (.openUrandom r)
  if r.ret < 0 then (-1, { s with exc := some (.OSError s.errno) }) else (r.ret, s)

/-- Modelled from the spec: `_Py_read` of `fileutils.c`; POSIX `read` that
returns the count read, or `-1` with an exception in the error indicator. -/
def _Py_read (fd dest n : Int) (r : OsResp) (s : State) : Int × State :=
  let s := s.syscall r (.read fd dest n r)
  if r.ret < 0 then (-1, { s with exc := some (.OSError s.errno) }) else (r.ret, s)

/-- POSIX `read(fd, dest, n)`. -/
def read (fd dest n : Int) (r : OsResp) (s : State) : Int × State :=
  (r.ret, s.syscall r (.read fd dest n r))

/-- POSIX `close(fd)`; the file never looks at its result. -/
def close (fd : Int) (s : State) : State := s.log (.close fd)

/-! ## `py_getrandom` -/

/-- The count `py_getrandom` passes to `getrandom()`: `Py_MIN(size, 1024)`
under `#ifdef sun`, `Py_MIN(size, LONG_MAX)` otherwise. -/
def py_getrandom.count (P : Platform) (size : Int) : Int :=
  if P.sun then min size 1024 else min size P.LONG_MAX

/-- How one pass through the body of the `while` loop of `py_getrandom` ends
after its `getrandom()` call. -/
inductive py_getrandom.Next where
  /-- The statement `return res`. -/
  | ret (res : Int) (s : State)
  /-- The next iteration, with these `dest` and `size`. -/
  | again (dest size : Int) (s : State)
  /-- The error `EINTR` with `raise` set: `PyErr_CheckSignals()` decides between
  `return -1` and `continue`. -/
  | interrupted (s : State)

/-- One pass through the body of the `while` loop of `py_getrandom`: the
`getrandom()` call, which receives the response `r`, and what the code does
with its result. -/
def py_getrandom.iteration (P : Platform) (blocking raise : Bool) (flags : Int)
    (r : OsResp) (dest size : Int) (s : State) : py_getrandom.Next :=
  let n := py_getrandom.count P size
  let s := { s with errno := 0 }
  let (n, s) := getrandom dest n flags r s
  if n < 0 then
    if s.errno = ENOSYS ∨ s.errno = EPERM then
      .ret 0 { s with getrandom_works := false }
    else if s.errno = EAGAIN ∧ raise = false ∧ blocking = false then
      .ret 0 s
    else if s.errno = EINTR then
      if raise then .interrupted s else .again dest size s
    else
      .ret (-1) (if raise then { s with exc := some (.OSError s.errno) } else s)
  else .again (dest + n) (size - n) s

/-- The `while (0 < size)` loop of `py_getrandom`. -/
def py_getrandom.loop (P : Platform) (blocking raise : Bool) (flags : Int) :
    Script → Int → Int → State → Option (Int × State × Script)
  | os, dest, size, s =>
    if 0 < size then
      match os with
      | [] => none
      | r :: os =>
        match py_getrandom.iteration P blocking raise flags r dest size s with
        | .ret res s => some (res, s, os)
        | .again dest size s => py_getrandom.loop P blocking raise flags os dest size s
        | .interrupted s =>
          match os with
          | [] => none
          | c :: os =>
            let (sig, s) := PyErr_CheckSignals c s
            if sig ≠ 0 then some (-1, s, os)
            else py_getrandom.loop P blocking raise flags os dest size s
    else some (1, s, os)

/-- Embedding of `py_getrandom(buffer, size, blocking, raise)`: `1` on success,
`0` when the caller must fall back on `/dev/urandom`, `-1` on error. -/
def py_getrandom (P : Platform) (size : Int) (blocking raise : Bool)
    (s : State) (os : Script) : Option (Int × State × Script) :=
  if s.getrandom_works = false then some (0, s, os)
  else
    let flags := if blocking then 0 else GRND_NONBLOCK
    py_getrandom.loop P blocking raise flags os 0 size s

/-! ## `dev_urandom` -/

/-- The `do { ... } while (0 < size)` loop of the `raise` branch. -/
def dev_urandom.readRaise (fd : Int) :
    Script → Int → Int → State → Option (Int × State × Script)
  | [], _, _, _ => none
  | r :: os, dest, size, s =>
    let (n, s) := _Py_read fd dest size r s
    if n = -1 then some (-1, s, os)
    else if n = 0 then some (-1, { s with exc := some .RuntimeError }, os)
    else if 0 < size - n then dev_urandom.readRaise fd os (dest + n) (size - n) s
    else some (0, s, os)

/-- The `while (0 < size)` loop of the branch without `raise`, with its inner
`do { n = read(...) } while (n < 0 && errno == EINTR)`: an interrupted read
repeats the same call, and the outer test still holds then.  Every exit of the
loop is followed by `close(fd)`. -/
def dev_urandom.readNoraise (fd : Int) :
    Script → Int → Int → State → Option (Int × State × Script)
  | os, dest, size, s =>
    if 0 < size then
      match os with
      | [] => none
      | r :: os =>
        let (n, s) := read fd dest size r s
        if n < 0 ∧ s.errno = EINTR then dev_urandom.readNoraise fd os dest size s
        else if n ≤ 0 then some (-1, close fd s, os)
        else dev_urandom.readNoraise fd os (dest + n) (size - n) s
    else some (0, close fd s, os)

/-- The first `if (urandom_cache.fd >= 0)` of the `raise` branch: re-stat the
cached descriptor and forget it, without closing it, when it no longer is the
file that was cached. -/
def dev_urandom.checkCache (s : State) (os : Script) : Option (State × Script) :=
  if 0 ≤ s.urandom_cache.fd then
    match os with
    | [] => none
    | st :: os =>
      let (res, s) := _Py_fstat_noraise s.urandom_cache.fd st s
      if res ≠ 0 ∨ st.st_dev ≠ s.urandom_cache.st_dev
          ∨ st.st_ino ≠ s.urandom_cache.st_ino then
        some ({ s with urandom_cache := { s.urandom_cache with fd := -1 } }, os)
      else some (s, os)
  else some (s, os)

/-- The `raise` branch of `dev_urandom` after the cache check: take the cached
descriptor or open, stat and cache a new one, then read. -/
def dev_urandom.openAndRead (size : Int) (s : State) (os : Script) :
    Option (Int × State × Script) :=
  if 0 ≤ s.urandom_cache.fd then
    dev_urandom.readRaise s.urandom_cache.fd os 0 size s
  else
    match os with
    | [] => none
    | r :: os =>
      let (fd, s) := _Py_open r s
      if fd < 0 then
        if s.errno = ENOENT ∨ s.errno = ENXIO ∨ s.errno = ENODEV ∨ s.errno = EACCES then
          some (-1, { s with exc := some .NotImplementedError }, os)
        else some (-1, s, os)
      else if 0 ≤ s.urandom_cache.fd then
        -- set by another thread while the GIL was released: cannot happen in
        -- a sequential run, kept as in the source
        let s := close fd s
        dev_urandom.readRaise s.urandom_cache.fd os 0 size s
      else
        match os with
        | [] => none
        | st :: os =>
          let (res, s) := _Py_fstat fd st s
          if res ≠ 0 then some (-1, close fd s, os)
          else
            let s := { s with urandom_cache := ⟨fd, st.st_dev, st.st_ino⟩ }
            dev_urandom.readRaise fd os 0 size s

/-- The `raise` branch of `dev_urandom`. -/
def dev_urandom.withRaise (size : Int) (s : State) (os : Script) :
    Option (Int × State × Script) :=
  match dev_urandom.checkCache s os with
  | none => none
  | some (s, os) => dev_urandom.openAndRead size s os

/-- The branch of `dev_urandom` without `raise`: a private descriptor per call. -/
def dev_urandom.noRaise (size : Int) (s : State) (os : Script) :
    Option (Int × State × Script) :=
  match os with
  | [] => none
  | r :: os =>
    let (fd, s) := _Py_open_noraise r s
    if fd < 0 then some (-1, s, os)
    else dev_urandom.readNoraise fd os 0 size s

/-- The part of `dev_urandom` after the `getrandom()` attempt. -/
def dev_urandom.file (size : Int) (raise : Bool) (s : State) (os : Script) :
    Option (Int × State × Script) :=
  if raise then dev_urandom.withRaise size s os else dev_urandom.noRaise size s os

/-- Embedding of `dev_urandom(buffer, size, blocking, raise)` (called with
`size > 0`): `0` on success, `-1` on error. -/
def dev_urandom (P : Platform) (size : Int) (blocking raise : Bool)
    (s : State) (os : Script) : Option (Int × State × Script) :=
  if P.PY_GETRANDOM then
    match py_getrandom P size blocking raise s os with
    | none => none
    | some (res, s, os) =>
      if res < 0 then some (-1, s, os)
      else if res = 1 then some (0, s, os)
      else dev_urandom.file size raise s os
  else dev_urandom.file size raise s os

/-- Embedding of `dev_urandom_close()`. -/
def dev_urandom_close (s : State) : State :=
  if 0 ≤ s.urandom_cache.fd then
    let s := close s.urandom_cache.fd s
    { s with urandom_cache := { s.urandom_cache with fd := -1 } }
  else s

/-! ## `pyurandom` and the public entry points -/

/-- Embedding of `pyurandom(buffer, size, blocking, raise)`. -/
def pyurandom (P : Platform) (size : Int) (blocking raise : Bool)
    (s : State) (os : Script) : Option (Int × State × Script) :=
  if size < 0 then
    some (-1, if raise then { s with exc := some .ValueError } else s, os)
  else if size = 0 then some (0, s, os)
  else dev_urandom P size blocking raise s os

/-- Embedding of `_PyOS_URandom(buffer, size)`. -/
def _PyOS_URandom (P : Platform) (size : Int) (s : State) (os : Script) :
    Option (Int × State × Script) :=
  pyurandom P size true true s os

/-- Embedding of `_PyOS_URandomNonblock(buffer, size)`. -/
def _PyOS_URandomNonblock (P : Platform) (size : Int) (s : State) (os : Script) :
    Option (Int × State × Script) :=
  pyurandom P size false true s os

/-- Embedding of `_PyRandom_Fini()`. -/
def _PyRandom_Fini (s : State) : State := dev_urandom_close s

/-- A sequence of `py_getrandom` calls, each given as `(size, blocking, raise)`,
run one after the other on the same process state; returns the results in
order. -/
def py_getrandom.calls (P : Platform) :
    List (Int × Bool × Bool) → State → Script → Option (List Int × State × Script)
  | [], s, os => some ([], s, os)
  | (size, blocking, raise) :: cs, s, os =>
    match py_getrandom P size blocking raise s os with
    | none => none
    | some (r, s, os) =>
      match py_getrandom.calls P cs s os with
      | none => none
      | some (rs, s, os) => some (r :: rs, s, os)

/-! ## C strings and `strtoul`

A C string is the list of its characters before the terminating NUL.  `*p` is
the head of the list, or NUL at its end; a NUL inside the list ends the string
for every function below, as it does in C. -/

/-- The character `*p`. -/
def deref (p : List Char) : Char := p.headD (Char.ofNat 0)

/-- The contents of the C string at `p`. -/
def cstr (p : List Char) : List Char := p.takeWhile fun c => c ≠ Char.ofNat 0

/-- The C library's `isspace` in the C locale: space, `\t`, `\n`, `\v`, `\f`, `\r`. -/
def isspace (c : Char) : Bool := c.toNat = 32 || (9 ≤ c.toNat && c.toNat ≤ 13)

/-- The C library's `isdigit`. -/
def isdigit (c : Char) : Bool := 48 ≤ c.toNat && c.toNat ≤ 57

/-- The digit loop of `strtoul` in base 10: the value of the longest run of
digits at `p` added to `acc * 10 ^ run length`, and the rest of the string. -/
def strtoul.digits : List Char → Nat → Nat × List Char
  | [], acc => (acc, [])
  | c :: cs, acc =>
    if isdigit c then strtoul.digits cs (acc * 10 + (c.toNat - 48)) else (acc, c :: cs)

/-- Where `strtoul` starts to look for digits: after the white space and one
optional sign (`-` is character 45, `+` is 43). -/
def strtoul.afterSign (nptr : List Char) : List Char :=
  let p := nptr.dropWhile isspace
  if deref p = Char.ofNat 45 ∨ deref p = Char.ofNat 43 then p.tail else p

/-- The C library's `strtoul(nptr, &endptr, 10)` (ISO C 7.22.1.4) for an
`unsigned long` with maximum `ULONG_MAX`: skip white space, take an optional
sign, then the longest run of decimal digits.  Returns the value, `endptr`, and
`errno` after the call.  Without a digit the value is `0` and `endptr = nptr`;
a value above `ULONG_MAX` gives `ULONG_MAX` and sets `errno` to `ERANGE`; a
minus sign negates the value in `unsigned long`.  `errno` is otherwise left as
it was. -/
def strtoul (ULONG_MAX : Nat) (nptr : List Char) (errno : Int) : Nat × List Char × Int :=
  let neg := decide (deref (nptr.dropWhile isspace) = Char.ofNat 45)
  let p := strtoul.afterSign nptr
  if isdigit (deref p) then
    let (v, rest) := strtoul.digits p 0
    if ULONG_MAX < v then (ULONG_MAX, rest, ERANGE)
    else if neg then ((ULONG_MAX + 1 - v) % (ULONG_MAX + 1), rest, errno)
    else (v, rest, errno)
  else (0, nptr, errno)

/-- C's `memset(buffer, c, n)` on a buffer given as a list. -/
def memset (buffer : List Nat) (c : Nat) (n : Nat) : List Nat :=
  List.replicate (min n buffer.length) c ++ buffer.drop n

/-! ## `_PyRandom_Init` -/

/-- The bytes the call stored, applied to a buffer: a transfer that returned
`ret > 0` at `dest` stores byte `k` of its data at offset `dest + k`. -/
def Event.store (e : Event) (buffer : List Nat) : List Nat :=
  match e with
  | .getrandom dest _ _ r | .read _ dest _ r =>
    (List.range r.ret.toNat).foldl
      (fun (b : List Nat) (k : Nat) =>
        if 0 ≤ dest + (k : Int) then b.set (dest + (k : Int)).toNat (r.data.getD k 0) else b)
      buffer
  | _ => buffer

/-- The buffer after the calls of `evs`, in order. -/
def storeAll (evs : List Event) (buffer : List Nat) : List Nat :=
  evs.foldl (fun b e => e.store b) buffer

/-- How `_PyRandom_Init` ends: it returns, or `Py_FatalError` aborts the
process with the given message. -/
inductive InitResult where
  | returned
  | fatal (msg : String)
deriving DecidableEq, Repr

def seedMessage : String :=
  "PYTHONHASHSEED must be \"random\" or an integer in range [0; 4294967295]"

def entropyMessage : String :=
  "failed to get random numbers to initialize Python"

/-- Embedding of `_PyRandom_Init()`.  `env` is what
`Py_GETENV("PYTHONHASHSEED")` returns: `none` for `NULL`. -/
def _PyRandom_Init (P : Platform) (env : Option (List Char)) (s : State) (os : Script) :
    Option (InitResult × State × Script) :=
  if s._Py_HashSecret_Initialized then some (.returned, s, os)
  else
    let s := { s with _Py_HashSecret_Initialized := true }
    let s := s.log .getenv
    match env with
    | some env =>
      if deref env ≠ Char.ofNat 0 ∧ cstr env ≠ "random".toList then
        let (seed, endptr, errno) := strtoul P.ULONG_MAX env s.errno
        let s := { s with errno := errno }
        if deref endptr ≠ Char.ofNat 0 ∨ seed > 4294967295
            ∨ (s.errno = ERANGE ∧ seed = P.ULONG_MAX) then
          some (.fatal seedMessage, s, os)
        else if seed = 0 then
          some (.returned, { s with secret := memset s.secret 0 P.secret_size }, os)
        else
          some (.returned, { s with secret := lcg_urandom seed s.secret P.secret_size }, os)
      else _PyRandom_Init.entropy P s os
    | none => _PyRandom_Init.entropy P s os
where
  /-- The `else` branch: fill the secret from the OS with `blocking = 0`,
  `raise = 0`. -/
  entropy (P : Platform) (s : State) (os : Script) : Option (InitResult × State × Script) :=
    match pyurandom P P.secret_size false false s os with
    | none => none
    | some (res, t, os) =>
      let t := { t with secret := storeAll (newEvents s t) t.secret }
      if res < 0 then some (.fatal entropyMessage, t, os) else some (.returned, t, os)

/-! ## Vocabulary of the statements -/

/-- The descriptor a `read` or `close` call acts on. -/
def Event.usedFd : Event → Option Int
  | .read fd _ _ _ => some fd
  | .close fd => some fd
  | _ => none

/-- Whether the call is an `open` of `/dev/urandom`. -/
def Event.isOpen : Event → Bool
  | .openUrandom _ => true
  | _ => false

/-- The fields no function of the entropy reader touches. -/
def SameSecret (s t : State) : Prop :=
  t._Py_HashSecret_Initialized = s._Py_HashSecret_Initialized ∧ t.secret = s.secret

/-- What a transfer loop guarantees about the calls `new` it issued to fill
`[dest, dest + size)` when it returned `res`, `good` being its success code. -/
def Filled (good : Int) (dest size res : Int) (new : List Event) : Prop :=
  (res = good → ∀ i, dest ≤ i → i < dest + size → wrote new i = true)
  ∧ ((∀ e ∈ new, e.countOk = true) → ∀ i, wrote new i = true → dest ≤ i ∧ i < dest + size)

/-- What the `getrandom()` loop guarantees when it returns `res` from state
`s` in state `t`, having issued the calls `new`. -/
structure GetrandomPost (flags dest size : Int) (s : State) (res : Int) (t : State)
    (new : List Event) : Prop where
  trace : t.trace = s.trace ++ new
  secret : SameSecret s t
  cache : t.urandom_cache = s.urandom_cache
  filled : Filled 1 dest size res new
  mono : t.getrandom_works = true → s.getrandom_works = true
  flip : t.getrandom_works ≠ s.getrandom_works →
    res = 0 ∧ ∃ pre d n r, new = pre ++ [.getrandom d n flags r] ∧ r.ret < 0
      ∧ (r.errno = ENOSYS ∨ r.errno = EPERM)
  calls : ∀ e ∈ new, e.usedFd = none ∧ e.isOpen = false

/-- What a read loop on descriptor `fd` guarantees when it returns `res` from
state `s` in state `t`, having issued the calls `new`; `closing` tells whether
the loop closes `fd` before it returns. -/
structure ReadPost (closing : Bool) (fd dest size : Int) (s : State) (res : Int) (t : State)
    (new : List Event) : Prop where
  trace : t.trace = s.trace ++ new
  secret : SameSecret s t
  cache : t.urandom_cache = s.urandom_cache
  works : t.getrandom_works = s.getrandom_works
  filled : Filled 0 dest size res new
  calls : ∀ e ∈ new, (∃ d n r, e = .read fd d n r) ∨ (closing = true ∧ e = .close fd)

/-- The cached descriptor no longer is the file that was cached: `fstat` on it
fails, or reports another device or inode. -/
def Stale (c : Cache) (st : OsResp) : Prop :=
  st.ret ≠ 0 ∨ st.st_dev ≠ c.st_dev ∨ st.st_ino ≠ c.st_ino

instance (c : Cache) (st : OsResp) : Decidable (Stale c st) := by
  unfold Stale; infer_instance

/-- The calls of the cache check that lead to a fresh `open`: none when the
cache is empty, the `fstat` that found the cached descriptor stale otherwise. -/
def Unusable (s : State) (pre : List Event) : Prop :=
  (s.urandom_cache.fd < 0 ∧ pre = [])
  ∨ (0 ≤ s.urandom_cache.fd ∧ ∃ st, Stale s.urandom_cache st
      ∧ pre = [.fstat s.urandom_cache.fd st])

/-- The ways through the `raise` branch of `dev_urandom` from state `s` to the
return of `res` in state `t`, with the calls issued on the way. -/
inductive RaisePath (size : Int) (s : State) (res : Int) (t : State) : List Event → Prop
  /-- The cached descriptor is still the cached file: it is read. -/
  | reuse (st : OsResp) (s1 : State) (new : List Event) :
      0 ≤ s.urandom_cache.fd → ¬ Stale s.urandom_cache st →
      s1.trace = s.trace ++ [.fstat s.urandom_cache.fd st] → SameSecret s s1 →
      s1.urandom_cache = s.urandom_cache → s1.getrandom_works = s.getrandom_works →
      ReadPost false s.urandom_cache.fd 0 size s1 res t new →
      RaisePath size s res t (.fstat s.urandom_cache.fd st :: new)
  /-- No usable cached descriptor, and `open` fails. -/
  | openFailed (pre : List Event) (o : OsResp) :
      Unusable s pre → o.ret < 0 → res = -1 →
      t.trace = s.trace ++ (pre ++ [.openUrandom o]) → SameSecret s t →
      (t.urandom_cache.fd = -1 ∨ t.urandom_cache = s.urandom_cache) →
      t.getrandom_works = s.getrandom_works →
      RaisePath size s res t (pre ++ [.openUrandom o])
  /-- No usable cached descriptor, `open` succeeds and `fstat` on the new
  descriptor fails: the new descriptor is closed. -/
  | fstatFailed (pre : List Event) (o st : OsResp) :
      Unusable s pre → 0 ≤ o.ret → st.ret ≠ 0 → res = -1 →
      t.trace = s.trace ++ (pre ++ [.openUrandom o, .fstat o.ret st, .close o.ret]) →
      SameSecret s t → (t.urandom_cache.fd = -1 ∨ t.urandom_cache = s.urandom_cache) →
      t.getrandom_works = s.getrandom_works →
      RaisePath size s res t (pre ++ [.openUrandom o, .fstat o.ret st, .close o.ret])
  /-- No usable cached descriptor, `open` and `fstat` succeed: the new
  descriptor is cached with its identity and read. -/
  | opened (pre : List Event) (o st : OsResp) (s1 : State) (new : List Event) :
      Unusable s pre → 0 ≤ o.ret → st.ret = 0 →
      s1.trace = s.trace ++ (pre ++ [.openUrandom o, .fstat o.ret st]) → SameSecret s s1 →
      s1.urandom_cache = ⟨o.ret, st.st_dev, st.st_ino⟩ →
      s1.getrandom_works = s.getrandom_works →
      ReadPost false o.ret 0 size s1 res t new →
      RaisePath size s res t (pre ++ [.openUrandom o, .fstat o.ret st] ++ new)

/-- What `dev_urandom` and `pyurandom` guarantee when they return `res` from
state `s` in state `t`, having issued the calls `new` for a buffer of `size`
bytes. -/
structure UrandomPost (size : Int) (s : State) (res : Int) (t : State)
    (new : List Event) : Prop where
  trace : t.trace = s.trace ++ new
  secret : SameSecret s t
  mono : t.getrandom_works = true → s.getrandom_works = true
  cache : -1 ≤ s.urandom_cache.fd → -1 ≤ t.urandom_cache.fd
  filled : Filled 0 0 size res new

/-! ## Sample runs used as witnesses -/

/-- A run of `pyurandom` for 16 bytes: `getrandom` delivers 5 bytes, is
interrupted (the signal handlers raise nothing), then fails with `ENOSYS`;
`/dev/urandom` is opened as descriptor 3 and read in two parts. -/
def sampleScript : Script :=
  [.ok 5, .fail EINTR, .ok 0, .fail ENOSYS, .ok 3, .stat 1 2, .ok 10, .ok 6]

/-- The state after the run of `sampleScript` from the initial state. -/
def sampleFinal : State :=
  ⟨false, ⟨3, 1, 2⟩, false, [], ENOSYS, none,
    [.getrandom 0 16 0 (.ok 5), .getrandom 5 11 0 (.fail EINTR), .checkSignals (.ok 0),
     .getrandom 5 11 0 (.fail ENOSYS), .openUrandom (.ok 3), .fstat 3 (.stat 1 2),
     .read 3 0 16 (.ok 10), .read 3 10 6 (.ok 6)]⟩

/-- A process state whose `getrandom()` is known not to work and whose cache
holds descriptor 5 for the file with device 1 and inode 2. -/
def cachedState : State := ⟨false, ⟨5, 1, 2⟩, false, [], 0, none, []⟩

/-- A process state in which `_PyRandom_Init` has run: the flag is set and the
secret holds three bytes. -/
def initialisedState : State := ⟨true, ⟨-1, 0, 0⟩, true, [1, 2, 3], 0, none, [.getenv]⟩

/-! ## The override value as the specification words it -/

/-- The string is a plain decimal numeral: not empty, decimal digits only. -/
def isNumeral (p : List Char) : Bool := !p.isEmpty && p.all isdigit

/-- The value of a string of decimal digits. -/
def decimalValue (p : List Char) : Nat :=
  p.foldl (fun acc c => acc * 10 + (c.toNat - 48)) 0

/-- The specification's "base-10 unsigned integer in `[0, 4294967295]`". -/
def InSeedRange (p : List Char) : Prop :=
  isNumeral p = true ∧ decimalValue p ≤ 4294967295

instance (p : List Char) : Decidable (InSeedRange p) := by
  unfold InSeedRange; infer_instance

/-- The value `strtoul` gives a string of white space, an optional sign and
decimal digits whose digits have the value `v`: `v` itself, or `v` negated in
`unsigned long` when the sign is a minus (character 45). -/
def signedValue (ULONG_MAX : Nat) (env : List Char) : Nat :=
  if deref (env.dropWhile isspace) = Char.ofNat 45 then
    (ULONG_MAX + 1 - decimalValue (strtoul.afterSign env)) % (ULONG_MAX + 1)
  else decimalValue (strtoul.afterSign env)

/-- The override values that `strtoul` converts in full to a value in
`[0, 4294967295]`: optional white space, an optional sign, then decimal digits
only, whose value fits `unsigned long` and, with the sign applied, lies in the
range.  Every base-10 unsigned integer in `[0, 4294967295]` is one of them. -/
def ConvertedInRange (ULONG_MAX : Nat) (env : List Char) : Prop :=
  isNumeral (strtoul.afterSign env) = true
  ∧ decimalValue (strtoul.afterSign env) ≤ ULONG_MAX
  ∧ signedValue ULONG_MAX env ≤ 4294967295

instance (M : Nat) (env : List Char) : Decidable (ConvertedInRange M env) := by
  unfold ConvertedInRange; infer_instance

/-! ## The generator `lcg_urandom` -/

theorem lcgSeq_shift (x0 k : Nat) :
    lcgSeq x0 (k + 1) = lcgSeq ((x0 * 214013 + 2531011) % 2 ^ 32) k := by
  induction k with
  | zero => simp only [lcgSeq]
  | succ k ih => rw [lcgSeq, ih]; simp only [lcgSeq]

theorem lcg_step_eq (x : Nat) :
    ((x * 214013) % 2 ^ 32 + 2531011) % 2 ^ 32 = (x * 214013 + 2531011) % 2 ^ 32 := by
  omega

theorem lcg_urandom.loop_get (k : Nat) : ∀ (index x : Nat) (buffer : List Nat) (i : Nat),
    (lcg_urandom.loop k index x buffer)[i]? =
      if index ≤ i ∧ i < index + k ∧ i < buffer.length then
        some ((lcgSeq x (i - index + 1) >>> 16) &&& 0xff)
      else buffer[i]? := by
  induction k with
  | zero =>
    intro index x buffer i
    rw [if_neg (by omega)]; rfl
  | succ k ih =>
    intro index x buffer i
    simp only [lcg_urandom.loop, ih, lcg_step_eq, List.length_set]
    by_cases h1 : index + 1 ≤ i ∧ i < index + 1 + k ∧ i < buffer.length
    · have h2 : index ≤ i ∧ i < index + (k + 1) ∧ i < buffer.length := by omega
      rw [if_pos h1, if_pos h2, ← lcgSeq_shift]
      have : i - (index + 1) + 1 = i - index := by omega
      rw [this]
    · rw [if_neg h1]
      by_cases h3 : index = i
      · subst h3
        by_cases h4 : index < buffer.length
        · rw [if_pos (by omega)]
          simp [List.getElem?_set, h4, lcgSeq]
        · rw [if_neg (by omega)]
          simp [List.getElem?_set, h4]; omega
      · rw [if_neg (by omega)]
        simp [List.getElem?_set, h3]

theorem lcg_urandom_eq (x0 : Nat) (buffer : List Nat) (n : Nat)
    (hx : x0 < 2 ^ 32) (hn : n ≤ buffer.length) :
    lcg_urandom x0 buffer n = lcgBytes x0 n ++ buffer.drop n := by
  apply List.ext_getElem?
  intro i
  rw [lcg_urandom, lcg_urandom.loop_get, Nat.mod_eq_of_lt hx]
  by_cases h : i < n
  · rw [if_pos (by omega), List.getElem?_append_left (by simp [lcgBytes, h])]
    simp [lcgBytes, h]
  · rw [if_neg (by omega), List.getElem?_append_right (by simp [lcgBytes]; omega)]
    simp [lcgBytes]
    congr 1; omega

/-- C3: for a 32-bit seed `x0` and a buffer of at least `n` bytes,
`lcg_urandom` writes exactly the first `n` bytes (the rest of the buffer is as
before), byte `i` being `(x_{i+1} >> 16) & 0xFF` for the recurrence
`x_0 = x0`, `x_{k+1} = (x_k * 214013 + 2531011) mod 2^32`; the bytes written
depend on `(x0, n)` only; `lcg(1, 4) = [0x29, 0x23, 0xBE, 0x84]` with
`x_1 = 2745024`. -/
theorem lcg_urandom_spec (x0 n : Nat) (buffer : List Nat)
    (hx : x0 < 2 ^ 32) (hn : n ≤ buffer.length) :
    (lcg_urandom x0 buffer n).length = buffer.length
    ∧ (∀ i, i < n →
        (lcg_urandom x0 buffer n)[i]? = some ((lcgSeq x0 (i + 1) >>> 16) &&& 0xff))
    ∧ (∀ i, n ≤ i → (lcg_urandom x0 buffer n)[i]? = buffer[i]?)
    ∧ (∀ other : List Nat, n ≤ other.length →
        (lcg_urandom x0 other n).take n = (lcg_urandom x0 buffer n).take n)
    ∧ lcg_urandom 1 [0, 0, 0, 0] 4 = [0x29, 0x23, 0xBE, 0x84]
    ∧ lcgSeq 1 1 = 2745024 := by
  have hget : ∀ i, (lcg_urandom x0 buffer n)[i]? =
      if i < n then some ((lcgSeq x0 (i + 1) >>> 16) &&& 0xff) else buffer[i]? := by
    intro i
    rw [lcg_urandom, lcg_urandom.loop_get, Nat.mod_eq_of_lt hx]
    by_cases h : i < n
    · rw [if_pos (by omega), if_pos h]; simp
    · rw [if_neg (by omega), if_neg h]
  have htake : ∀ b : List Nat, n ≤ b.length → (lcg_urandom x0 b n).take n = lcgBytes x0 n := by
    intro b hb
    rw [lcg_urandom_eq x0 b n hx hb, List.take_left']
    simp [lcgBytes]
  refine ⟨?_, ?_, ?_, ?_, by decide, by decide⟩
  · rw [lcg_urandom_eq x0 buffer n hx hn]
    simp [lcgBytes]; omega
  · intro i hi; rw [hget, if_pos hi]
  · intro i hi; rw [hget, if_neg (by omega)]
  · intro other ho; rw [htake other ho, htake buffer hn]

/-- Witness for C3: seed `12345`, six bytes into an eight-byte buffer. -/
theorem lcg_urandom_spec_witness :
    12345 < 2 ^ 32 ∧ 6 ≤ [9, 9, 9, 9, 9, 9, 9, 9].length
    ∧ (lcg_urandom 12345 [9, 9, 9, 9, 9, 9, 9, 9] 6)[2]?
        = some ((lcgSeq 12345 3 >>> 16) &&& 0xff)
    ∧ (lcg_urandom 12345 [9, 9, 9, 9, 9, 9, 9, 9] 6)[7]? = some 9 :=
  ⟨by decide, by decide,
   (lcg_urandom_spec 12345 6 [9, 9, 9, 9, 9, 9, 9, 9] (by decide) (by decide)).2.1 2
      (by decide),
   (lcg_urandom_spec 12345 6 [9, 9, 9, 9, 9, 9, 9, 9] (by decide) (by decide)).2.2.1 7
      (by decide)⟩

/-! ## Traces: what a list of calls stored, and frames -/

theorem newEvents_eq {s t : State} {new : List Event} (h : t.trace = s.trace ++ new) :
    newEvents s t = new := by
  simp [newEvents, h]

theorem wrote_nil (i : Int) : wrote [] i = false := rfl

theorem wrote_append (a b : List Event) (i : Int) :
    wrote (a ++ b) i = (wrote a i || wrote b i) := by
  simp [wrote, List.any_append]

theorem wrote_cons (e : Event) (b : List Event) (i : Int) :
    wrote (e :: b) i = (e.writes i || wrote b i) := by
  simp [wrote]

theorem Filled.done {good dest size res : Int} (hsize : size ≤ 0) :
    Filled good dest size res [] := by
  refine ⟨fun _ i h1 h2 => ?_, fun _ i h => ?_⟩
  · omega
  · simp [wrote] at h

theorem Filled.stop {good dest size res : Int} {new : List Event} (hne : res ≠ good)
    (hw : ∀ e ∈ new, ∀ i, e.writes i = false) : Filled good dest size res new := by
  refine ⟨fun h => absurd h hne, fun _ i h => ?_⟩
  simp only [wrote, List.any_eq_true] at h
  obtain ⟨e, he, hwi⟩ := h
  rw [hw e he i] at hwi
  cases hwi

theorem Filled.skip {good dest size res : Int} {e : Event} {new : List Event}
    (hw : ∀ i, e.writes i = false) (h : Filled good dest size res new) :
    Filled good dest size res (e :: new) := by
  refine ⟨fun hr i h1 h2 => ?_, fun hc i hi => ?_⟩
  · rw [wrote_cons, h.1 hr i h1 h2, Bool.or_true]
  · rw [wrote_cons, hw i, Bool.false_or] at hi
    exact h.2 (fun e he => hc e (List.mem_cons_of_mem _ he)) i hi

theorem Filled.step {good dest size res ret n : Int} {e : Event} {new : List Event}
    (hw : ∀ i, e.writes i = decide (0 < ret ∧ dest ≤ i ∧ i < dest + ret))
    (hc : e.countOk = decide (0 ≤ ret → 1 ≤ ret ∧ ret ≤ n)) (hn : n ≤ size) (h0 : 0 ≤ ret)
    (h : Filled good (dest + ret) (size - ret) res new) :
    Filled good dest size res (e :: new) := by
  refine ⟨fun hr i h1 h2 => ?_, fun hok i hi => ?_⟩
  · rw [wrote_cons, hw i]
    by_cases hlt : i < dest + ret
    · have : 0 < ret ∧ dest ≤ i ∧ i < dest + ret := ⟨by omega, h1, hlt⟩
      simp [this]
    · rw [h.1 hr i (by omega) (by omega), Bool.or_true]
  · have he := hok e (List.mem_cons_self _ _)
    rw [hc, decide_eq_true_eq] at he
    rw [wrote_cons, hw i, Bool.or_eq_true, decide_eq_true_eq] at hi
    rcases hi with hi | hi
    · have := he h0
      omega
    · have := h.2 (fun e he => hok e (List.mem_cons_of_mem _ he)) i hi
      omega

theorem py_getrandom.count_le (P : Platform) (size : Int) :
    py_getrandom.count P size ≤ size := by
  unfold py_getrandom.count
  split <;> omega

/-- What one pass of the `getrandom()` loop does, by the way it ends. -/
theorem py_getrandom.iteration_spec (P : Platform) (blocking raise : Bool) (flags : Int)
    (r : OsResp) (dest size : Int) (s : State) :
    (∀ res s1, py_getrandom.iteration P blocking raise flags r dest size s = .ret res s1 →
      s1.trace = s.trace ++ [.getrandom dest (py_getrandom.count P size) flags r]
      ∧ SameSecret s s1 ∧ s1.urandom_cache = s.urandom_cache ∧ r.ret < 0
      ∧ ((res = 0 ∧ (r.errno = ENOSYS ∨ r.errno = EPERM) ∧ s1.getrandom_works = false)
        ∨ (res = 0 ∧ r.errno = EAGAIN ∧ raise = false ∧ blocking = false
            ∧ s1.getrandom_works = s.getrandom_works)
        ∨ (res = -1 ∧ s1.getrandom_works = s.getrandom_works)))
    ∧ (∀ d sz s1, py_getrandom.iteration P blocking raise flags r dest size s = .again d sz s1 →
      s1.trace = s.trace ++ [.getrandom dest (py_getrandom.count P size) flags r]
      ∧ SameSecret s s1 ∧ s1.urandom_cache = s.urandom_cache
      ∧ s1.getrandom_works = s.getrandom_works
      ∧ ((r.ret < 0 ∧ d = dest ∧ sz = size) ∨ (0 ≤ r.ret ∧ d = dest + r.ret ∧ sz = size - r.ret)))
    ∧ (∀ s1, py_getrandom.iteration P blocking raise flags r dest size s = .interrupted s1 →
      s1.trace = s.trace ++ [.getrandom dest (py_getrandom.count P size) flags r]
      ∧ SameSecret s s1 ∧ s1.urandom_cache = s.urandom_cache
      ∧ s1.getrandom_works = s.getrandom_works ∧ r.ret < 0 ∧ raise = true) := by
  simp only [py_getrandom.iteration, getrandom, State.syscall, SameSecret]
  refine ⟨?_, ?_, ?_⟩
  · intro res s1 h
    split_ifs at h with h1 h2 h3 h4 h5 <;>
      (simp only [py_getrandom.Next.ret.injEq] at h
       obtain ⟨rfl, rfl⟩ := h
       simp_all)
  · intro d sz s1 h
    split_ifs at h with h1 h2 h3 h4 h5 <;>
      (simp only [py_getrandom.Next.again.injEq] at h
       obtain ⟨rfl, rfl, rfl⟩ := h
       simp_all
       try omega)
  · intro s1 h
    split_ifs at h with h1 h2 h3 h4 h5
    simp only [py_getrandom.Next.interrupted.injEq] at h
    obtain rfl := h
    simp_all

theorem Event.getrandom_writes_neg {d n f : Int} {r : OsResp} (h : r.ret < 0) (i : Int) :
    (Event.getrandom d n f r).writes i = false := by
  simp only [Event.writes, decide_eq_false_iff_not]
  omega

theorem Event.read_writes_nonpos {fd d n : Int} {r : OsResp} (h : r.ret ≤ 0) (i : Int) :
    (Event.read fd d n r).writes i = false := by
  simp only [Event.writes, decide_eq_false_iff_not]
  omega

theorem GetrandomPost_cons {flags dest size d sz res : Int} {s s1 t : State} {r : OsResp}
    {n : Int} {new : List Event}
    (ht : s1.trace = s.trace ++ [.getrandom dest n flags r]) (hs : SameSecret s s1)
    (hc : s1.urandom_cache = s.urandom_cache) (hg : s1.getrandom_works = s.getrandom_works)
    (hn : n ≤ size)
    (hcase : (r.ret < 0 ∧ d = dest ∧ sz = size) ∨ (0 ≤ r.ret ∧ d = dest + r.ret ∧ sz = size - r.ret))
    (h : GetrandomPost flags d sz s1 res t new) :
    GetrandomPost flags dest size s res t (.getrandom dest n flags r :: new) := by
  refine ⟨?_, ⟨h.secret.1.trans hs.1, h.secret.2.trans hs.2⟩, h.cache.trans hc, ?_, ?_, ?_, ?_⟩
  · rw [h.trace, ht]; simp
  · rcases hcase with ⟨hneg, rfl, rfl⟩ | ⟨hpos, rfl, rfl⟩
    · exact Filled.skip (Event.getrandom_writes_neg hneg) h.filled
    · exact Filled.step (fun i => rfl) rfl hn hpos h.filled
  · intro h1; rw [← hg]; exact h.mono h1
  · intro h1
    rw [← hg] at h1
    obtain ⟨h2, pre, d', n', r', h3, h4⟩ := h.flip h1
    exact ⟨h2, _ :: pre, d', n', r', by rw [h3]; rfl, h4⟩
  · intro e he
    rcases List.mem_cons.1 he with rfl | he
    · exact ⟨rfl, rfl⟩
    · exact h.calls e he

theorem py_getrandom.loop_post (P : Platform) (blocking raise : Bool) (flags : Int) :
    ∀ (k : Nat) (os : Script), os.length = k → ∀ (dest size : Int) (s : State) (res : Int)
      (s' : State) (os' : Script),
      py_getrandom.loop P blocking raise flags os dest size s = some (res, s', os') →
      ∃ new, GetrandomPost flags dest size s res s' new := by
  intro k
  induction k using Nat.strong_induction_on with
  | _ k ih =>
  intro os hk dest size s res s' os' h
  rw [py_getrandom.loop.eq_def] at h
  simp only at h
  split at h
  · rename_i hsz
    match os, hk, h with
    | r :: os, hk, h =>
      simp only at h
      have hspec := py_getrandom.iteration_spec P blocking raise flags r dest size s
      split at h
      · rename_i res1 s1 hit
        simp only [Option.some.injEq, Prod.mk.injEq] at h
        obtain ⟨rfl, rfl, rfl⟩ := h
        obtain ⟨ht, hs, hc, hneg, hcase⟩ := hspec.1 _ _ hit
        refine ⟨[_], ht, hs, hc, ?_, ?_, ?_, ?_⟩
        · refine Filled.stop ?_ ?_
          · rcases hcase with ⟨h, -⟩ | ⟨h, -⟩ | ⟨h, -⟩ <;> omega
          · intro e he i
            rw [List.mem_singleton.1 he]
            exact Event.getrandom_writes_neg hneg i
        · intro hw
          rcases hcase with ⟨-, -, h⟩ | ⟨-, -, -, -, h⟩ | ⟨-, h⟩
          · rw [h] at hw; cases hw
          · rw [← h]; exact hw
          · rw [← h]; exact hw
        · intro hne
          rcases hcase with ⟨h1, h2, -⟩ | ⟨-, -, -, -, h⟩ | ⟨-, h⟩
          · exact ⟨h1, [], _, _, _, rfl, hneg, h2⟩
          · exact absurd h hne
          · exact absurd h hne
        · intro e he
          rw [List.mem_singleton.1 he]
          exact ⟨rfl, rfl⟩
      · rename_i d sz s1 hit
        obtain ⟨ht, hs, hc, hg, hcase⟩ := hspec.2.1 _ _ _ hit
        obtain ⟨new, hpost⟩ := ih os.length (by simp at hk; omega) os rfl d sz s1 res s' os' h
        exact ⟨_, GetrandomPost_cons ht hs hc hg (py_getrandom.count_le P size) hcase hpost⟩
      · rename_i s1 hit
        obtain ⟨ht, hs, hc, hg, hneg, -⟩ := hspec.2.2 _ hit
        match os, hk, h with
        | c :: os, hk, h =>
          simp only [PyErr_CheckSignals, State.log] at h
          split at h
          · simp only [Option.some.injEq, Prod.mk.injEq] at h
            obtain ⟨rfl, rfl, rfl⟩ := h
            rename_i hsig
            refine ⟨[.getrandom dest (py_getrandom.count P size) flags r, .checkSignals c],
              ?_, ?_, ?_, ?_, ?_, ?_, ?_⟩
            · simp [hsig, ht]
            · simpa [SameSecret, hsig] using hs
            · simpa [hsig] using hc
            · refine Filled.stop (by omega) ?_
              intro e he i
              simp only [List.mem_cons, List.mem_singleton, List.not_mem_nil, or_false] at he
              rcases he with rfl | rfl
              · exact Event.getrandom_writes_neg hneg i
              · rfl
            · intro hw; rw [← hg]; simpa [hsig] using hw
            · intro hne; exfalso; apply hne; rw [← hg]
            · intro e he
              simp only [List.mem_cons, List.mem_singleton, List.not_mem_nil, or_false] at he
              rcases he with rfl | rfl <;> exact ⟨rfl, rfl⟩
          · rename_i hsig
            obtain ⟨new, hpost⟩ := ih os.length (by simp at hk; omega) os rfl _ _ _ res s' os' h
            have hpost2 : GetrandomPost flags dest size s1 res s' (.checkSignals c :: new) := by
              refine ⟨?_, hpost.secret, hpost.cache, Filled.skip (fun _ => rfl) hpost.filled,
                hpost.mono, ?_, ?_⟩
              · rw [hpost.trace]; simp
              · intro hne
                obtain ⟨h2, pre, d', n', r', h3, h4⟩ := hpost.flip hne
                exact ⟨h2, _ :: pre, d', n', r', by rw [h3]; rfl, h4⟩
              · intro e he
                rcases List.mem_cons.1 he with rfl | he
                · exact ⟨rfl, rfl⟩
                · exact hpost.calls e he
            exact ⟨_, GetrandomPost_cons ht hs hc hg (py_getrandom.count_le P size)
              (Or.inl ⟨hneg, rfl, rfl⟩) hpost2⟩
  · simp only [Option.some.injEq, Prod.mk.injEq] at h
    obtain ⟨rfl, rfl, rfl⟩ := h
    exact ⟨[], ⟨by simp, ⟨rfl, rfl⟩, rfl, Filled.done (by omega), id, fun h => absurd rfl h,
      by simp⟩⟩

/-! ## The `/dev/urandom` loops -/

theorem ReadPost_cons {closing : Bool} {fd dest size d sz res : Int} {s s1 t : State}
    {r : OsResp} {new : List Event}
    (h : ReadPost closing fd d sz s1 res t new)
    (ht : s1.trace = s.trace ++ [.read fd dest size r]) (hs : SameSecret s s1)
    (hc : s1.urandom_cache = s.urandom_cache) (hg : s1.getrandom_works = s.getrandom_works)
    (hcase : (r.ret ≤ 0 ∧ d = dest ∧ sz = size) ∨ (0 ≤ r.ret ∧ d = dest + r.ret ∧ sz = size - r.ret)) :
    ReadPost closing fd dest size s res t (.read fd dest size r :: new) := by
  refine ⟨?_, ⟨h.secret.1.trans hs.1, h.secret.2.trans hs.2⟩, h.cache.trans hc,
    h.works.trans hg, ?_, ?_⟩
  · rw [h.trace, ht]; simp
  · rcases hcase with ⟨hneg, rfl, rfl⟩ | ⟨hpos, rfl, rfl⟩
    · exact Filled.skip (Event.read_writes_nonpos hneg) h.filled
    · exact Filled.step (fun i => rfl) rfl (le_refl _) hpos h.filled
  · intro e he
    rcases List.mem_cons.1 he with rfl | he
    · exact Or.inl ⟨_, _, _, rfl⟩
    · exact h.calls e he

theorem dev_urandom.readRaise_post (fd : Int) :
    ∀ (os : Script) (dest size : Int) (s : State) (res : Int) (s' : State) (os' : Script),
      dev_urandom.readRaise fd os dest size s = some (res, s', os') →
      ∃ new, ReadPost false fd dest size s res s' new := by
  intro os
  induction os with
  | nil => intro dest size s res s' os' h; simp [dev_urandom.readRaise] at h
  | cons r os ih =>
    intro dest size s res s' os' h
    rw [dev_urandom.readRaise] at h
    simp only [_Py_read, State.syscall] at h
    by_cases hneg : r.ret < 0
    · simp only [hneg, if_true] at h
      simp only [Option.some.injEq, Prod.mk.injEq] at h
      obtain ⟨rfl, rfl, rfl⟩ := h
      refine ⟨[.read fd dest size r], rfl, ⟨rfl, rfl⟩, rfl, rfl, ?_, ?_⟩
      · refine Filled.stop (by omega) ?_
        intro e he i
        rw [List.mem_singleton.1 he]
        exact Event.read_writes_nonpos (by omega) i
      · intro e he
        rw [List.mem_singleton.1 he]
        exact Or.inl ⟨_, _, _, rfl⟩
    · simp only [hneg, if_false] at h
      have hne1 : ¬ r.ret = -1 := by omega
      simp only [hne1, if_false] at h
      by_cases hz : r.ret = 0
      · simp only [hz, if_true] at h
        simp only [Option.some.injEq, Prod.mk.injEq] at h
        obtain ⟨rfl, rfl, rfl⟩ := h
        refine ⟨[.read fd dest size r], rfl, ⟨rfl, rfl⟩, rfl, rfl, ?_, ?_⟩
        · refine Filled.stop (by omega) ?_
          intro e he i
          rw [List.mem_singleton.1 he]
          exact Event.read_writes_nonpos (by omega) i
        · intro e he
          rw [List.mem_singleton.1 he]
          exact Or.inl ⟨_, _, _, rfl⟩
      · simp only [hz, if_false] at h
        by_cases hmore : 0 < size - r.ret
        · simp only [hmore, if_true] at h
          obtain ⟨new, hpost⟩ := ih _ _ _ _ _ _ h
          have hcase : (r.ret ≤ 0 ∧ dest + r.ret = dest ∧ size - r.ret = size)
              ∨ (0 ≤ r.ret ∧ dest + r.ret = dest + r.ret ∧ size - r.ret = size - r.ret) :=
            Or.inr ⟨by omega, rfl, rfl⟩
          exact ⟨_, ReadPost_cons hpost rfl ⟨rfl, rfl⟩ rfl rfl hcase⟩
        · simp only [hmore, if_false] at h
          simp only [Option.some.injEq, Prod.mk.injEq] at h
          obtain ⟨rfl, rfl, rfl⟩ := h
          refine ⟨[.read fd dest size r], rfl, ⟨rfl, rfl⟩, rfl, rfl, ?_, ?_⟩
          · exact Filled.step (fun i => rfl) rfl (le_refl _) (by omega)
              (Filled.done (by omega))
          · intro e he
            rw [List.mem_singleton.1 he]
            exact Or.inl ⟨_, _, _, rfl⟩

theorem dev_urandom.readNoraise_post (fd : Int) :
    ∀ (os : Script) (dest size : Int) (s : State) (res : Int) (s' : State) (os' : Script),
      dev_urandom.readNoraise fd os dest size s = some (res, s', os') →
      ∃ new, ReadPost true fd dest size s res s' new := by
  intro os
  induction os with
  | nil =>
    intro dest size s res s' os' h
    rw [dev_urandom.readNoraise.eq_def] at h
    simp only at h
    split at h
    · cases h
    · simp only [Option.some.injEq, Prod.mk.injEq] at h
      obtain ⟨rfl, rfl, rfl⟩ := h
      refine ⟨[.close fd], rfl, ⟨rfl, rfl⟩, rfl, rfl, ?_, ?_⟩
      · exact Filled.skip (fun _ => rfl) (Filled.done (by omega))
      · intro e he
        rw [List.mem_singleton.1 he]
        exact Or.inr ⟨rfl, rfl⟩
  | cons r os ih =>
    intro dest size s res s' os' h
    rw [dev_urandom.readNoraise.eq_def] at h
    simp only at h
    by_cases hsz : 0 < size
    · simp only [hsz, if_true, read, State.syscall] at h
      by_cases hint : r.ret < 0 ∧ (if r.ret < 0 then r.errno else s.errno) = EINTR
      · rw [if_pos hint] at h
        obtain ⟨new, hpost⟩ := ih _ _ _ _ _ _ h
        have hcase : (r.ret ≤ 0 ∧ dest = dest ∧ size = size)
            ∨ (0 ≤ r.ret ∧ dest = dest + r.ret ∧ size = size - r.ret) :=
          Or.inl ⟨by omega, rfl, rfl⟩
        exact ⟨_, ReadPost_cons hpost rfl ⟨rfl, rfl⟩ rfl rfl hcase⟩
      · rw [if_neg hint] at h
        by_cases hle : r.ret ≤ 0
        · simp only [hle, if_true] at h
          simp only [Option.some.injEq, Prod.mk.injEq] at h
          obtain ⟨rfl, rfl, rfl⟩ := h
          refine ⟨[.read fd dest size r, .close fd], ?_, ⟨rfl, rfl⟩, rfl, rfl, ?_, ?_⟩
          · simp [close, State.log]
          · refine Filled.stop (by omega) ?_
            intro e he i
            simp only [List.mem_cons, List.mem_singleton, List.not_mem_nil, or_false] at he
            rcases he with rfl | rfl
            · exact Event.read_writes_nonpos hle i
            · rfl
          · intro e he
            simp only [List.mem_cons, List.mem_singleton, List.not_mem_nil, or_false] at he
            rcases he with rfl | rfl
            · exact Or.inl ⟨_, _, _, rfl⟩
            · exact Or.inr ⟨rfl, rfl⟩
        · simp only [hle, if_false] at h
          obtain ⟨new, hpost⟩ := ih _ _ _ _ _ _ h
          have hcase : (r.ret ≤ 0 ∧ dest + r.ret = dest ∧ size - r.ret = size)
              ∨ (0 ≤ r.ret ∧ dest + r.ret = dest + r.ret ∧ size - r.ret = size - r.ret) :=
            Or.inr ⟨by omega, rfl, rfl⟩
          exact ⟨_, ReadPost_cons hpost rfl ⟨rfl, rfl⟩ rfl rfl hcase⟩
    · simp only [hsz, if_false] at h
      simp only [Option.some.injEq, Prod.mk.injEq] at h
      obtain ⟨rfl, rfl, rfl⟩ := h
      refine ⟨[.close fd], rfl, ⟨rfl, rfl⟩, rfl, rfl, ?_, ?_⟩
      · exact Filled.skip (fun _ => rfl) (Filled.done (by omega))
      · intro e he
        rw [List.mem_singleton.1 he]
        exact Or.inr ⟨rfl, rfl⟩

theorem Filled.prepend {good dest size res : Int} {new : List Event} :
    ∀ (pre : List Event), (∀ e ∈ pre, ∀ i, e.writes i = false) →
      Filled good dest size res new → Filled good dest size res (pre ++ new)
  | [], _, h => h
  | e :: pre, hw, h =>
    Filled.skip (hw e (List.mem_cons_self _ _))
      (Filled.prepend pre (fun e he => hw e (List.mem_cons_of_mem _ he)) h)

/-- The `raise` branch from a state without a cached descriptor. -/
theorem dev_urandom.openAndRead_fresh (size : Int) (s : State) (os : Script) (res : Int)
    (t : State) (os' : Script) (hfd : s.urandom_cache.fd < 0)
    (h : dev_urandom.openAndRead size s os = some (res, t, os')) :
    (∃ o, o.ret < 0 ∧ res = -1 ∧ t.trace = s.trace ++ [.openUrandom o] ∧ SameSecret s t
        ∧ t.urandom_cache = s.urandom_cache ∧ t.getrandom_works = s.getrandom_works)
    ∨ (∃ o st, 0 ≤ o.ret ∧ st.ret ≠ 0 ∧ res = -1
        ∧ t.trace = s.trace ++ [.openUrandom o, .fstat o.ret st, .close o.ret]
        ∧ SameSecret s t ∧ t.urandom_cache = s.urandom_cache
        ∧ t.getrandom_works = s.getrandom_works)
    ∨ (∃ o st s1 new, 0 ≤ o.ret ∧ st.ret = 0
        ∧ s1.trace = s.trace ++ [.openUrandom o, .fstat o.ret st] ∧ SameSecret s s1
        ∧ s1.urandom_cache = ⟨o.ret, st.st_dev, st.st_ino⟩
        ∧ s1.getrandom_works = s.getrandom_works
        ∧ ReadPost false o.ret 0 size s1 res t new) := by
  unfold dev_urandom.openAndRead at h
  have hfd' : ¬ 0 ≤ s.urandom_cache.fd := by omega
  rw [if_neg hfd'] at h
  match os, h with
  | o :: os, h =>
    simp only [_Py_open, State.syscall] at h
    by_cases ho : o.ret < 0
    · left
      simp only [ho, if_true] at h
      have hneg : (-1 : Int) < 0 := by omega
      simp only [hneg, if_true] at h
      refine ⟨o, ho, ?_⟩
      split at h <;>
        (simp only [Option.some.injEq, Prod.mk.injEq] at h
         obtain ⟨rfl, rfl, rfl⟩ := h
         exact ⟨rfl, rfl, ⟨rfl, rfl⟩, rfl, rfl⟩)
    · right
      simp only [ho, if_false, hfd'] at h
      match os, h with
      | st :: os, h =>
        simp only [_Py_fstat, State.syscall] at h
        by_cases hst : st.ret ≠ 0
        · left
          rw [if_pos hst] at h
          simp only [ne_eq, Int.reduceNeg, neg_eq_zero, one_ne_zero, not_false_eq_true,
            if_true, Option.some.injEq, Prod.mk.injEq] at h
          obtain ⟨rfl, rfl, rfl⟩ := h
          exact ⟨o, st, by omega, hst, rfl, by simp [close, State.log], ⟨rfl, rfl⟩, rfl, rfl⟩
        · right
          rw [if_neg hst] at h
          simp only [ne_eq, not_true_eq_false, if_false] at h
          obtain ⟨new, hpost⟩ := dev_urandom.readRaise_post _ _ _ _ _ _ _ _ h
          refine ⟨o, st, _, new, by omega, by omega, ?_, ?_, ?_, ?_, hpost⟩
          · simp
          · exact ⟨rfl, rfl⟩
          · rfl
          · rfl

theorem dev_urandom.withRaise_path (size : Int) (s : State) (os : Script) (res : Int)
    (t : State) (os' : Script) (h : dev_urandom.withRaise size s os = some (res, t, os')) :
    ∃ new, RaisePath size s res t new := by
  unfold dev_urandom.withRaise dev_urandom.checkCache at h
  by_cases hfd : 0 ≤ s.urandom_cache.fd
  · rw [if_pos hfd] at h
    match os, h with
    | st :: os, h =>
      simp only [_Py_fstat_noraise, State.syscall] at h
      by_cases hst : st.ret ≠ 0 ∨ st.st_dev ≠ s.urandom_cache.st_dev
          ∨ st.st_ino ≠ s.urandom_cache.st_ino
      · rw [if_pos hst] at h
        simp only at h
        have hun : Unusable s [.fstat s.urandom_cache.fd st] := Or.inr ⟨hfd, st, hst, rfl⟩
        rcases dev_urandom.openAndRead_fresh size _ os res t os' (by simp) h with
          ⟨o, ho, hres, ht, hs, hc, hg⟩ | ⟨o, st2, ho, hst2, hres, ht, hs, hc, hg⟩
          | ⟨o, st2, s1, new, ho, hst2, ht, hs, hc, hg, hpost⟩
        · exact ⟨_, RaisePath.openFailed _ o hun ho hres (by simpa using ht) hs
            (Or.inl (by rw [hc])) hg⟩
        · exact ⟨_, RaisePath.fstatFailed _ o st2 hun ho hst2 hres (by simpa using ht) hs
            (Or.inl (by rw [hc])) hg⟩
        · exact ⟨_, RaisePath.opened _ o st2 s1 new hun ho hst2 (by simpa using ht) hs hc hg
            hpost⟩
      · rw [if_neg hst] at h
        simp only at h
        unfold dev_urandom.openAndRead at h
        simp only [hfd, if_true] at h
        obtain ⟨new, hpost⟩ := dev_urandom.readRaise_post _ _ _ _ _ _ _ _ h
        refine ⟨_, RaisePath.reuse st _ new hfd hst ?_ ?_ ?_ ?_ hpost⟩
        · rfl
        · exact ⟨rfl, rfl⟩
        · rfl
        · rfl
  · rw [if_neg hfd] at h
    simp only at h
    have hun : Unusable s [] := Or.inl ⟨by omega, rfl⟩
    rcases dev_urandom.openAndRead_fresh size s os res t os' (by omega) h with
      ⟨o, ho, hres, ht, hs, hc, hg⟩ | ⟨o, st2, ho, hst2, hres, ht, hs, hc, hg⟩
      | ⟨o, st2, s1, new, ho, hst2, ht, hs, hc, hg, hpost⟩
    · exact ⟨_, RaisePath.openFailed _ o hun ho hres (by simpa using ht) hs
        (Or.inr hc) hg⟩
    · exact ⟨_, RaisePath.fstatFailed _ o st2 hun ho hst2 hres (by simpa using ht) hs
        (Or.inr hc) hg⟩
    · exact ⟨_, RaisePath.opened _ o st2 s1 new hun ho hst2 (by simpa using ht) hs hc hg
        hpost⟩

theorem UrandomPost.of_read {closing : Bool} {fd size res : Int} {s s1 t : State}
    {pre new : List Event} (h : ReadPost closing fd 0 size s1 res t new)
    (ht : s1.trace = s.trace ++ pre) (hs : SameSecret s s1)
    (hg : s1.getrandom_works = s.getrandom_works)
    (hc : -1 ≤ s.urandom_cache.fd → -1 ≤ s1.urandom_cache.fd)
    (hw : ∀ e ∈ pre, ∀ i, e.writes i = false) :
    UrandomPost size s res t (pre ++ new) := by
  refine ⟨?_, ⟨h.secret.1.trans hs.1, h.secret.2.trans hs.2⟩, ?_, ?_,
    Filled.prepend pre hw h.filled⟩
  · rw [h.trace, ht, List.append_assoc]
  · intro h1; rw [← hg, ← h.works]; exact h1
  · intro h1; rw [h.cache]; exact hc h1

theorem UrandomPost.failed {size res : Int} {s t : State} {new : List Event}
    (hres : res = -1) (ht : t.trace = s.trace ++ new) (hs : SameSecret s t)
    (hg : t.getrandom_works = s.getrandom_works)
    (hc : t.urandom_cache.fd = -1 ∨ t.urandom_cache = s.urandom_cache)
    (hw : ∀ e ∈ new, ∀ i, e.writes i = false) : UrandomPost size s res t new := by
  refine ⟨ht, hs, fun h1 => by rw [← hg]; exact h1, fun h1 => ?_, Filled.stop (by omega) hw⟩
  rcases hc with h | h
  · omega
  · rw [h]; exact h1

theorem Unusable.writes {s : State} {pre : List Event} (h : Unusable s pre) :
    ∀ e ∈ pre, ∀ i, e.writes i = false := by
  rcases h with ⟨-, rfl⟩ | ⟨-, st, -, rfl⟩
  · intro e he; cases he
  · intro e he i; rw [List.mem_singleton.1 he]; rfl

theorem RaisePath.post {size res : Int} {s t : State} {new : List Event}
    (h : RaisePath size s res t new) : UrandomPost size s res t new := by
  cases h with
  | reuse st s1 new hfd hst ht hs hc hg hpost =>
    exact UrandomPost.of_read hpost ht hs hg (fun h => by rw [hc]; exact h)
      (fun e he i => by rw [List.mem_singleton.1 he]; rfl)
  | openFailed pre o hun ho hres ht hs hc hg =>
    refine UrandomPost.failed hres ht hs hg hc ?_
    intro e he i
    rcases List.mem_append.1 he with he | he
    · exact hun.writes e he i
    · rw [List.mem_singleton.1 he]; rfl
  | fstatFailed pre o st hun ho hst hres ht hs hc hg =>
    refine UrandomPost.failed hres ht hs hg hc ?_
    intro e he i
    rcases List.mem_append.1 he with he | he
    · exact hun.writes e he i
    · simp only [List.mem_cons, List.mem_singleton, List.not_mem_nil, or_false] at he
      rcases he with rfl | rfl | rfl <;> rfl
  | opened pre o st s1 new hun ho hst ht hs hc hg hpost =>
    refine UrandomPost.of_read hpost ht hs hg (fun _ => by rw [hc]; simp only; omega) ?_
    intro e he i
    rcases List.mem_append.1 he with he | he
    · exact hun.writes e he i
    · simp only [List.mem_cons, List.mem_singleton, List.not_mem_nil, or_false] at he
      rcases he with rfl | rfl <;> rfl

theorem dev_urandom.noRaise_post (size : Int) (s : State) (os : Script) (res : Int)
    (t : State) (os' : Script) (h : dev_urandom.noRaise size s os = some (res, t, os')) :
    ∃ new, UrandomPost size s res t new ∧ t.urandom_cache = s.urandom_cache := by
  unfold dev_urandom.noRaise at h
  match os, h with
  | o :: os, h =>
    simp only [_Py_open_noraise, State.syscall] at h
    by_cases ho : o.ret < 0
    · simp only [ho, if_true] at h
      have hneg : (-1 : Int) < 0 := by omega
      simp only [hneg, if_true, Option.some.injEq, Prod.mk.injEq] at h
      obtain ⟨rfl, rfl, rfl⟩ := h
      refine ⟨[.openUrandom o], UrandomPost.failed rfl rfl ⟨rfl, rfl⟩ rfl (Or.inr rfl) ?_, rfl⟩
      intro e he i; rw [List.mem_singleton.1 he]; rfl
    · simp only [ho, if_false] at h
      obtain ⟨new, hpost⟩ := dev_urandom.readNoraise_post _ _ _ _ _ _ _ _ h
      refine ⟨[.openUrandom o] ++ new, UrandomPost.of_read hpost ?_ ?_ ?_ ?_ ?_, hpost.cache⟩
      · rfl
      · exact ⟨rfl, rfl⟩
      · rfl
      · exact id
      · intro e he i; rw [List.mem_singleton.1 he]; rfl

theorem dev_urandom.file_post (size : Int) (raise : Bool) (s : State) (os : Script)
    (res : Int) (t : State) (os' : Script)
    (h : dev_urandom.file size raise s os = some (res, t, os')) :
    ∃ new, UrandomPost size s res t new := by
  unfold dev_urandom.file at h
  cases raise with
  | true =>
    obtain ⟨new, hp⟩ := dev_urandom.withRaise_path size s os res t os' h
    exact ⟨new, hp.post⟩
  | false =>
    obtain ⟨new, hp, -⟩ := dev_urandom.noRaise_post size s os res t os' h
    exact ⟨new, hp⟩

theorem py_getrandom_post (P : Platform) (size : Int) (blocking raise : Bool) (s : State)
    (os : Script) (res : Int) (t : State) (os' : Script)
    (h : py_getrandom P size blocking raise s os = some (res, t, os')) :
    ∃ new, GetrandomPost (if blocking then 0 else GRND_NONBLOCK) 0 size s res t new := by
  unfold py_getrandom at h
  by_cases hw : s.getrandom_works = false
  · rw [if_pos hw] at h
    simp only [Option.some.injEq, Prod.mk.injEq] at h
    obtain ⟨rfl, rfl, rfl⟩ := h
    refine ⟨[], by simp, ⟨rfl, rfl⟩, rfl, ?_, id, fun h => absurd rfl h, by simp⟩
    exact Filled.stop (by omega) (by simp)
  · rw [if_neg hw] at h
    exact py_getrandom.loop_post P blocking raise _ _ os rfl 0 size s res t os' h

theorem Filled.append_left {good dest size res : Int} {a b : List Event}
    (ha : (∀ e ∈ a, e.countOk = true) → ∀ i, wrote a i = true → dest ≤ i ∧ i < dest + size)
    (hb : Filled good dest size res b) : Filled good dest size res (a ++ b) := by
  refine ⟨fun hr i h1 h2 => ?_, fun hok i hi => ?_⟩
  · rw [wrote_append, hb.1 hr i h1 h2, Bool.or_true]
  · rw [wrote_append, Bool.or_eq_true] at hi
    rcases hi with hi | hi
    · exact ha (fun e he => hok e (List.mem_append_left _ he)) i hi
    · exact hb.2 (fun e he => hok e (List.mem_append_right _ he)) i hi

theorem dev_urandom_post (P : Platform) (size : Int) (blocking raise : Bool) (s : State)
    (os : Script) (res : Int) (t : State) (os' : Script)
    (h : dev_urandom P size blocking raise s os = some (res, t, os')) :
    ∃ new, UrandomPost size s res t new := by
  unfold dev_urandom at h
  by_cases hP : P.PY_GETRANDOM = true
  · rw [if_pos hP] at h
    match hg : py_getrandom P size blocking raise s os, h with
    | some (r1, s1, os1), h =>
      obtain ⟨new1, hp1⟩ := py_getrandom_post P size blocking raise s os r1 s1 os1 hg
      simp only at h
      by_cases hneg : r1 < 0
      · rw [if_pos hneg] at h
        simp only [Option.some.injEq, Prod.mk.injEq] at h
        obtain ⟨rfl, rfl, rfl⟩ := h
        exact ⟨new1, hp1.trace, hp1.secret, hp1.mono, fun h => by rw [hp1.cache]; exact h,
          ⟨fun h => by omega, hp1.filled.2⟩⟩
      · rw [if_neg hneg] at h
        by_cases hone : r1 = 1
        · rw [if_pos hone] at h
          simp only [Option.some.injEq, Prod.mk.injEq] at h
          obtain ⟨rfl, rfl, rfl⟩ := h
          exact ⟨new1, hp1.trace, hp1.secret, hp1.mono, fun h => by rw [hp1.cache]; exact h,
            ⟨fun _ => hp1.filled.1 hone, hp1.filled.2⟩⟩
        · rw [if_neg hone] at h
          obtain ⟨new2, hp2⟩ := dev_urandom.file_post size raise s1 os1 res t os' h
          refine ⟨new1 ++ new2, ?_, ⟨hp2.secret.1.trans hp1.secret.1,
            hp2.secret.2.trans hp1.secret.2⟩, fun h => hp1.mono (hp2.mono h),
            fun h => hp2.cache (by rw [hp1.cache]; exact h),
            Filled.append_left hp1.filled.2 hp2.filled⟩
          rw [hp2.trace, hp1.trace, List.append_assoc]
  · rw [if_neg hP] at h
    exact dev_urandom.file_post size raise s os res t os' h

theorem pyurandom_post (P : Platform) (size : Int) (blocking raise : Bool) (s : State)
    (os : Script) (res : Int) (t : State) (os' : Script)
    (h : pyurandom P size blocking raise s os = some (res, t, os')) :
    ∃ new, UrandomPost size s res t new := by
  unfold pyurandom at h
  by_cases hneg : size < 0
  · rw [if_pos hneg] at h
    simp only [Option.some.injEq, Prod.mk.injEq] at h
    obtain ⟨rfl, rfl, rfl⟩ := h
    refine ⟨[], ?_, ?_, ?_, ?_, Filled.stop (by omega) (by simp)⟩
    · cases raise <;> simp
    · cases raise <;> exact ⟨rfl, rfl⟩
    · cases raise <;> exact id
    · cases raise <;> exact id
  · rw [if_neg hneg] at h
    by_cases hz : size = 0
    · rw [if_pos hz] at h
      simp only [Option.some.injEq, Prod.mk.injEq] at h
      obtain ⟨rfl, rfl, rfl⟩ := h
      exact ⟨[], by simp, ⟨rfl, rfl⟩, id, id, Filled.done (by omega)⟩
    · rw [if_neg hz] at h
      exact dev_urandom_post P size blocking raise s os res t os' h

/-! ## The claims about the entropy reader -/

/-- C1: if `pyurandom` (so also `_PyOS_URandom`, `_PyOS_URandomNonblock`) is
called with any size (in particular `size > 0`), any flags, any capability
flag and descriptor cache, and returns `0`, and every `getrandom`/`read` call
it made that succeeded returned a count between `1` and the count requested,
then the calls it made stored a byte at every offset of `[0, size)` and at no
offset outside. -/
theorem pyurandom_success_fills (P : Platform) (size : Int) (blocking raise : Bool)
    (s : State) (os : Script) (t : State) (os' : Script)
    (hrun : pyurandom P size blocking raise s os = some (0, t, os'))
    (hcount : ∀ e ∈ newEvents s t, e.countOk = true) :
    (∀ i, 0 ≤ i → i < size → wrote (newEvents s t) i = true)
    ∧ (∀ i, size ≤ i → wrote (newEvents s t) i = false)
    ∧ (∀ i, i < 0 → wrote (newEvents s t) i = false) := by
  obtain ⟨new, hp⟩ := pyurandom_post P size blocking raise s os 0 t os' hrun
  rw [newEvents_eq hp.trace] at hcount ⊢
  have hin := hp.filled.2 hcount
  refine ⟨fun i h1 h2 => hp.filled.1 rfl i h1 (by omega), fun i hi => ?_, fun i hi => ?_⟩
  · cases hw : wrote new i with
    | false => rfl
    | true => have := hin i hw; omega
  · cases hw : wrote new i with
    | false => rfl
    | true => have := hin i hw; omega

/-- C2: for `size ≤ 0` and any flags `pyurandom` returns at once, consuming no
OS response and issuing no call; the capability flag and the descriptor cache
are as before; the result is `-1` exactly when `size < 0`, with `ValueError`
set exactly when `raise` is set, and `0` with the state untouched when
`size = 0`.  The public entry points fail with `ValueError` when `size < 0`. -/
theorem pyurandom_nonpositive_size (P : Platform) (size : Int) (blocking raise : Bool)
    (s : State) (os : Script) (hsize : size ≤ 0) :
    ∃ res t, pyurandom P size blocking raise s os = some (res, t, os)
      ∧ newEvents s t = []
      ∧ t.getrandom_works = s.getrandom_works
      ∧ t.urandom_cache = s.urandom_cache
      ∧ (res = -1 ↔ size < 0)
      ∧ (size = 0 → res = 0 ∧ t = s)
      ∧ (size < 0 → raise = true → t = { s with exc := some .ValueError })
      ∧ (size < 0 → raise = false → t = s)
      ∧ (size < 0 →
          _PyOS_URandom P size s os = some (-1, { s with exc := some .ValueError }, os)
          ∧ _PyOS_URandomNonblock P size s os
              = some (-1, { s with exc := some .ValueError }, os)) := by
  by_cases hneg : size < 0
  · refine ⟨-1, if raise then { s with exc := some .ValueError } else s, ?_, ?_, ?_, ?_,
      ?_, ?_, ?_, ?_, ?_⟩
    · simp [pyurandom, hneg]
    · cases raise <;> simp [newEvents]
    · cases raise <;> rfl
    · cases raise <;> rfl
    · simp [hneg]
    · intro h; omega
    · intro _ hr; simp [hr]
    · intro _ hr; simp [hr]
    · intro _; simp [_PyOS_URandom, _PyOS_URandomNonblock, pyurandom, hneg]
  · have hz : size = 0 := by omega
    refine ⟨0, s, ?_, ?_, rfl, rfl, ?_, ?_, ?_, ?_, ?_⟩
    · simp [pyurandom, hz]
    · simp [newEvents]
    · simp [hneg]
    · intro _; exact ⟨rfl, rfl⟩
    · intro h; exact absurd h hneg
    · intro h; exact absurd h hneg
    · intro h; exact absurd h hneg

/-- Witness for C2: `size = -3` with `raise` set, from the initial state. -/
theorem pyurandom_nonpositive_size_witness :
    (-3 : Int) ≤ 0 ∧ ∃ res t,
      pyurandom linux64 (-3) false true (State.initial []) [OsResp.ok 1]
        = some (res, t, [OsResp.ok 1])
      ∧ newEvents (State.initial []) t = []
      ∧ t.getrandom_works = (State.initial []).getrandom_works
      ∧ t.urandom_cache = (State.initial []).urandom_cache
      ∧ (res = -1 ↔ (-3 : Int) < 0)
      ∧ ((-3 : Int) = 0 → res = 0 ∧ t = State.initial [])
      ∧ ((-3 : Int) < 0 → true = true →
          t = { State.initial [] with exc := some .ValueError })
      ∧ ((-3 : Int) < 0 → true = false → t = State.initial [])
      ∧ ((-3 : Int) < 0 →
          _PyOS_URandom linux64 (-3) (State.initial []) [OsResp.ok 1]
            = some (-1, { State.initial [] with exc := some .ValueError }, [OsResp.ok 1])
          ∧ _PyOS_URandomNonblock linux64 (-3) (State.initial []) [OsResp.ok 1]
            = some (-1, { State.initial [] with exc := some .ValueError }, [OsResp.ok 1])) :=
  ⟨by decide,
   pyurandom_nonpositive_size linux64 (-3) false true (State.initial []) [OsResp.ok 1]
     (by decide)⟩

theorem PyRandom_Init_cache (P : Platform) (env : Option (List Char)) (s : State)
    (os : Script) (r : InitResult) (t : State) (os' : Script)
    (h : _PyRandom_Init P env s os = some (r, t, os')) (hs : -1 ≤ s.urandom_cache.fd) :
    -1 ≤ t.urandom_cache.fd := by
  have hent : ∀ u : State, _PyRandom_Init.entropy P u os = some (r, t, os') →
      u.urandom_cache = s.urandom_cache → -1 ≤ t.urandom_cache.fd := by
    intro u h hu
    unfold _PyRandom_Init.entropy at h
    match hp : pyurandom P P.secret_size false false u os, h with
    | some (res, v, os1), h =>
      obtain ⟨new, hpost⟩ := pyurandom_post P _ false false u os res v os1 hp
      have hv := hpost.cache (by rw [hu]; exact hs)
      simp only at h
      split at h <;>
        (simp only [Option.some.injEq, Prod.mk.injEq] at h
         obtain ⟨-, rfl, -⟩ := h
         exact hv)
  unfold _PyRandom_Init at h
  by_cases hi : s._Py_HashSecret_Initialized = true
  · rw [if_pos hi] at h
    simp only [Option.some.injEq, Prod.mk.injEq] at h
    obtain ⟨-, rfl, -⟩ := h
    exact hs
  · rw [if_neg hi] at h
    simp only at h
    cases env with
    | none => exact hent _ h rfl
    | some env =>
      simp only at h
      split at h
      · split at h
        · simp only [Option.some.injEq, Prod.mk.injEq] at h
          obtain ⟨-, rfl, -⟩ := h
          exact hs
        · split at h <;>
            (simp only [Option.some.injEq, Prod.mk.injEq] at h
             obtain ⟨-, rfl, -⟩ := h
             exact hs)
      · exact hent _ h rfl

/-- C8: `_PyRandom_Fini` leaves the descriptor cache empty: `fd < 0` from any
cache, and `fd = -1` from every cache the code can hold, that is with
`fd ≥ -1` (the initial cache has `fd = -1`, and `pyurandom` and
`_PyRandom_Init` keep `fd ≥ -1`).  On an empty cache it changes nothing and
issues no call; otherwise it issues exactly one `close`, of the cached
descriptor; a second call in a row changes nothing, so two calls issue the
same closes as one. -/
theorem PyRandom_Fini_idempotent (s : State) :
    (_PyRandom_Fini s).urandom_cache.fd < 0
    ∧ (-1 ≤ s.urandom_cache.fd → (_PyRandom_Fini s).urandom_cache.fd = -1)
    ∧ (s.urandom_cache.fd < 0 → _PyRandom_Fini s = s)
    ∧ (0 ≤ s.urandom_cache.fd →
        newEvents s (_PyRandom_Fini s) = [.close s.urandom_cache.fd])
    ∧ _PyRandom_Fini (_PyRandom_Fini s) = _PyRandom_Fini s
    ∧ newEvents s (_PyRandom_Fini (_PyRandom_Fini s)) = newEvents s (_PyRandom_Fini s)
    ∧ _PyRandom_Fini (State.initial s.secret) = State.initial s.secret
    ∧ (State.initial s.secret).urandom_cache.fd = -1
    ∧ (∀ P size blocking raise os res t os', -1 ≤ s.urandom_cache.fd →
        pyurandom P size blocking raise s os = some (res, t, os') →
        -1 ≤ t.urandom_cache.fd)
    ∧ (∀ P env os r t os', -1 ≤ s.urandom_cache.fd →
        _PyRandom_Init P env s os = some (r, t, os') → -1 ≤ t.urandom_cache.fd) := by
  have hfix : ∀ u : State, u.urandom_cache.fd < 0 → _PyRandom_Fini u = u := by
    intro u hu
    have : ¬ 0 ≤ u.urandom_cache.fd := by omega
    simp [_PyRandom_Fini, dev_urandom_close, this]
  have hneg : (_PyRandom_Fini s).urandom_cache.fd < 0 := by
    by_cases h : 0 ≤ s.urandom_cache.fd
    · simp [_PyRandom_Fini, dev_urandom_close, h, close, State.log]
    · rw [hfix s (by omega)]; omega
  refine ⟨hneg, ?_, hfix s, ?_, hfix _ hneg, by rw [hfix _ hneg],
    hfix _ (by simp [State.initial]), rfl, ?_, ?_⟩
  · intro h1
    by_cases h : 0 ≤ s.urandom_cache.fd
    · simp [_PyRandom_Fini, dev_urandom_close, h, close, State.log]
    · rw [hfix s (by omega)]; omega
  · intro h
    simp [_PyRandom_Fini, dev_urandom_close, h, close, State.log, newEvents]
  · intro P size blocking raise os res t os' hs h
    obtain ⟨new, hp⟩ := pyurandom_post P size blocking raise s os res t os' h
    exact hp.cache hs
  · intro P env os r t os' hs h
    exact PyRandom_Init_cache P env s os r t os' h hs

/-- Witness for C1: the run of `sampleScript`, with a partial `getrandom`, an
`EINTR` retry, an `ENOSYS` after a partial fill and the `/dev/urandom`
fallback that starts again at offset `0`. -/
theorem pyurandom_success_fills_witness :
    pyurandom linux64 16 true true (State.initial []) sampleScript
        = some (0, sampleFinal, [])
    ∧ (∀ e ∈ newEvents (State.initial []) sampleFinal, e.countOk = true)
    ∧ wrote (newEvents (State.initial []) sampleFinal) 15 = true
    ∧ wrote (newEvents (State.initial []) sampleFinal) 16 = false :=
  ⟨by decide, by decide,
   (pyurandom_success_fills linux64 16 true true (State.initial []) sampleScript
      sampleFinal [] (by decide) (by decide)).1 15 (by decide) (by decide),
   (pyurandom_success_fills linux64 16 true true (State.initial []) sampleScript
      sampleFinal [] (by decide) (by decide)).2.1 16 (by decide)⟩

/-- Witness for C8: a cache holding descriptor 5; one call closes it once, a
second call adds nothing. -/
theorem PyRandom_Fini_idempotent_witness :
    (_PyRandom_Fini cachedState).urandom_cache.fd = -1
    ∧ newEvents cachedState (_PyRandom_Fini cachedState) = [.close 5]
    ∧ newEvents cachedState (_PyRandom_Fini (_PyRandom_Fini cachedState)) = [.close 5] :=
  ⟨(PyRandom_Fini_idempotent cachedState).2.1 (by decide),
   (PyRandom_Fini_idempotent cachedState).2.2.2.1 (by decide),
   by rw [(PyRandom_Fini_idempotent cachedState).2.2.2.2.2.1]; decide⟩

/-! ## The capability flag and the initialiser's flag -/

theorem py_getrandom_disabled (P : Platform) (size : Int) (blocking raise : Bool)
    (s : State) (os : Script) (h : s.getrandom_works = false) :
    py_getrandom P size blocking raise s os = some (0, s, os) := by
  simp [py_getrandom, h]

theorem py_getrandom.calls_disabled (P : Platform) :
    ∀ (cs : List (Int × Bool × Bool)) (s : State) (os : Script),
      s.getrandom_works = false →
      py_getrandom.calls P cs s os = some (List.replicate cs.length 0, s, os)
  | [], _, _, _ => rfl
  | (size, blocking, raise) :: cs, s, os, h => by
    simp only [py_getrandom.calls, py_getrandom_disabled P size blocking raise s os h,
      py_getrandom.calls_disabled P cs s os h, List.length_cons, List.replicate_succ]

theorem py_getrandom.calls_mono (P : Platform) :
    ∀ (cs : List (Int × Bool × Bool)) (s : State) (os : Script) (rs : List Int) (t : State)
      (os' : Script), py_getrandom.calls P cs s os = some (rs, t, os') →
      t.getrandom_works = true → s.getrandom_works = true
  | [], s, os, rs, t, os', h, ht => by
    simp only [py_getrandom.calls, Option.some.injEq, Prod.mk.injEq] at h
    obtain ⟨-, rfl, -⟩ := h
    exact ht
  | (size, blocking, raise) :: cs, s, os, rs, t, os', h, ht => by
    simp only [py_getrandom.calls] at h
    match h1 : py_getrandom P size blocking raise s os, h with
    | some (r, s1, os1), h =>
      simp only at h
      match h2 : py_getrandom.calls P cs s1 os1, h with
      | some (rs2, s2, os2), h =>
        simp only [Option.some.injEq, Prod.mk.injEq] at h
        obtain ⟨-, rfl, -⟩ := h
        obtain ⟨new, hp⟩ := py_getrandom_post P size blocking raise s os r s1 os1 h1
        exact hp.mono (py_getrandom.calls_mono P cs s1 os1 rs2 s2 os2 h2 ht)

/-- C10: over any sequence of `py_getrandom` calls the flag `getrandom_works`
only goes from true to false: if it is true after the sequence it was true
before.  One call changes it only when the last `getrandom()` it issued
failed with `ENOSYS` or `EPERM` (and the call then returns `0`); a call with
`blocking = 0`, `raise = 0` whose `getrandom()` fails with `EAGAIN` returns `0`
and leaves it true.  Once it is false, every call of any later sequence returns
`0`, consumes no OS response, issues no call and changes nothing. -/
theorem getrandom_works_monotonic (P : Platform) (cs : List (Int × Bool × Bool))
    (s : State) (os : Script) :
    (∀ rs t os', py_getrandom.calls P cs s os = some (rs, t, os') →
        t.getrandom_works = true → s.getrandom_works = true)
    ∧ (s.getrandom_works = false →
        py_getrandom.calls P cs s os = some (List.replicate cs.length 0, s, os))
    ∧ (∀ size blocking raise, s.getrandom_works = false →
        py_getrandom P size blocking raise s os = some (0, s, os))
    ∧ (∀ size blocking raise res t os',
        py_getrandom P size blocking raise s os = some (res, t, os') →
        t.getrandom_works ≠ s.getrandom_works →
        s.getrandom_works = true ∧ t.getrandom_works = false ∧ res = 0
        ∧ ∃ pre d n fl r, newEvents s t = pre ++ [.getrandom d n fl r] ∧ r.ret < 0
            ∧ (r.errno = ENOSYS ∨ r.errno = EPERM))
    ∧ (∀ size r rest, 0 < size → s.getrandom_works = true → r.ret < 0 → r.errno = EAGAIN →
        ∃ t, py_getrandom P size false false s (r :: rest) = some (0, t, rest)
          ∧ t.getrandom_works = true
          ∧ newEvents s t = [.getrandom 0 (py_getrandom.count P size) GRND_NONBLOCK r]) := by
  refine ⟨py_getrandom.calls_mono P cs s os, py_getrandom.calls_disabled P cs s os,
    fun size blocking raise h => py_getrandom_disabled P size blocking raise s os h, ?_, ?_⟩
  · intro size blocking raise res t os' h hne
    obtain ⟨new, hp⟩ := py_getrandom_post P size blocking raise s os res t os' h
    obtain ⟨hres, pre, d, n, r, hnew, hr⟩ := hp.flip hne
    have hs : s.getrandom_works = true := by
      cases hs : s.getrandom_works with
      | true => rfl
      | false =>
        rw [py_getrandom_disabled P size blocking raise s os hs] at h
        simp only [Option.some.injEq, Prod.mk.injEq] at h
        exact absurd (by rw [← h.2.1]) hne
    have ht : t.getrandom_works = false := by
      cases ht : t.getrandom_works with
      | false => rfl
      | true => rw [ht, hs] at hne; exact absurd rfl hne
    exact ⟨hs, ht, hres, pre, d, n, _, r, by rw [newEvents_eq hp.trace, hnew], hr⟩
  · intro size r rest hsize hs hneg herr
    have hw : ¬ s.getrandom_works = false := by rw [hs]; decide
    refine ⟨{ s with errno := r.errno, trace := s.trace ++
      [.getrandom 0 (py_getrandom.count P size) GRND_NONBLOCK r] }, ?_, hs, ?_⟩
    · have h1 : ¬ (EAGAIN = ENOSYS ∨ EAGAIN = EPERM) := by decide
      rw [py_getrandom, if_neg hw, py_getrandom.loop.eq_def]
      simp [hsize, py_getrandom.iteration, getrandom, State.syscall, hneg, herr, h1]
    · simp [newEvents]

theorem PyRandom_Init.entropy_flag (P : Platform) (s : State) (os : Script) (r : InitResult)
    (t : State) (os' : Script) (hs : s._Py_HashSecret_Initialized = true)
    (h : _PyRandom_Init.entropy P s os = some (r, t, os')) :
    t._Py_HashSecret_Initialized = true := by
  unfold _PyRandom_Init.entropy at h
  match hp : pyurandom P P.secret_size false false s os, h with
  | some (res, u, os1), h =>
    obtain ⟨new, hpost⟩ := pyurandom_post P _ false false s os res u os1 hp
    simp only at h
    split at h <;>
      (simp only [Option.some.injEq, Prod.mk.injEq] at h
       obtain ⟨-, rfl, -⟩ := h
       exact hpost.secret.1.trans hs)

theorem PyRandom_Init_flag (P : Platform) (env : Option (List Char)) (s : State)
    (os : Script) (r : InitResult) (t : State) (os' : Script)
    (h : _PyRandom_Init P env s os = some (r, t, os')) :
    t._Py_HashSecret_Initialized = true := by
  unfold _PyRandom_Init at h
  by_cases hi : s._Py_HashSecret_Initialized = true
  · rw [if_pos hi] at h
    simp only [Option.some.injEq, Prod.mk.injEq] at h
    obtain ⟨-, rfl, -⟩ := h
    exact hi
  · rw [if_neg hi] at h
    simp only at h
    cases env with
    | none => exact PyRandom_Init.entropy_flag P _ os r t os' rfl h
    | some env =>
      simp only at h
      split at h
      · split at h
        · simp only [Option.some.injEq, Prod.mk.injEq] at h
          obtain ⟨-, rfl, -⟩ := h
          rfl
        · split at h <;>
            (simp only [Option.some.injEq, Prod.mk.injEq] at h
             obtain ⟨-, rfl, -⟩ := h
             rfl)
      · exact PyRandom_Init.entropy_flag P _ os r t os' rfl h

/-- C9: once `_Py_HashSecret_Initialized` is set, `_PyRandom_Init` returns at
once whatever the override is: it does not read the environment, consumes no OS
response, issues no call and leaves the whole state, secret and flag included,
as it was.  The flag never goes back: it is set after every `_PyRandom_Init`
call that ends, and `pyurandom` and `_PyRandom_Fini` leave the flag and the
secret alone. -/
theorem PyRandom_Init_idempotent (P : Platform) (env : Option (List Char)) (s : State)
    (os : Script) (hinit : s._Py_HashSecret_Initialized = true) :
    _PyRandom_Init P env s os = some (.returned, s, os)
    ∧ (∀ env0 s0 os0 r t os1, _PyRandom_Init P env0 s0 os0 = some (r, t, os1) →
        t._Py_HashSecret_Initialized = true)
    ∧ (∀ size blocking raise os0 res t os1,
        pyurandom P size blocking raise s os0 = some (res, t, os1) →
        t._Py_HashSecret_Initialized = true ∧ t.secret = s.secret)
    ∧ (_PyRandom_Fini s)._Py_HashSecret_Initialized = true
    ∧ (_PyRandom_Fini s).secret = s.secret := by
  refine ⟨by simp [_PyRandom_Init, hinit], fun env0 s0 os0 r t os1 h =>
    PyRandom_Init_flag P env0 s0 os0 r t os1 h, ?_, ?_, ?_⟩
  · intro size blocking raise os0 res t os1 h
    obtain ⟨new, hp⟩ := pyurandom_post P size blocking raise s os0 res t os1 h
    exact ⟨hp.secret.1.trans hinit, hp.secret.2⟩
  · unfold _PyRandom_Fini dev_urandom_close
    split <;> simp [close, State.log, hinit]
  · unfold _PyRandom_Fini dev_urandom_close
    split <;> simp [close, State.log]

/-- Witness for C9: re-entry with the override `"notanumber"`, which would be
fatal on a first call. -/
theorem PyRandom_Init_idempotent_witness :
    initialisedState._Py_HashSecret_Initialized = true
    ∧ _PyRandom_Init linux64 (some "notanumber".toList) initialisedState [.ok 1]
        = some (.returned, initialisedState, [.ok 1]) :=
  ⟨rfl, (PyRandom_Init_idempotent linux64 (some "notanumber".toList) initialisedState
    [.ok 1] rfl).1⟩

/-- With `raise` set, a `getrandom()` that fails with `EAGAIN` ends the call:
`py_getrandom` returns `-1` with `OSError(EAGAIN)` set and `dev_urandom`
returns `-1` without touching `/dev/urandom`, whatever `blocking` is. -/
theorem pyurandom_eagain_raise (P : Platform) (size : Int) (blocking : Bool) (s : State)
    (r : OsResp) (rest : Script) (hP : P.PY_GETRANDOM = true) (hsize : 0 < size)
    (hw : s.getrandom_works = true) (hneg : r.ret < 0) (herr : r.errno = EAGAIN) :
    pyurandom P size blocking true s (r :: rest) = some (-1,
      { s with
        errno := EAGAIN
        exc := some (.OSError EAGAIN)
        trace := s.trace ++ [.getrandom 0 (py_getrandom.count P size)
          (if blocking then 0 else GRND_NONBLOCK) r] }, rest) := by
  have h1 : ¬ size < 0 := by omega
  have h2 : ¬ size = 0 := by omega
  have h3 : ¬ (EAGAIN = ENOSYS ∨ EAGAIN = EPERM) := by decide
  have h4 : ¬ EAGAIN = EINTR := by decide
  have h5 : (-1 : Int) < 0 := by decide
  rw [pyurandom, if_neg h1, if_neg h2, dev_urandom, if_pos hP, py_getrandom,
    if_neg (by rw [hw]; decide), py_getrandom.loop.eq_def]
  simp [hsize, py_getrandom.iteration, getrandom, State.syscall, hneg, herr, h3, h4, h5]

/-- C6 fails on the code: `_PyOS_URandomNonblock` for 16 bytes on
a system whose entropy pool is not seeded (`getrandom(GRND_NONBLOCK)` fails
with `EAGAIN`) and whose `/dev/urandom` can be opened and read returns `-1`
with `OSError(EAGAIN)` set, and never opens `/dev/urandom`; the same request
with `raise = 0`, as `_PyRandom_Init` makes it, falls back and succeeds. -/
theorem URandomNonblock_eagain_fails :
    _PyOS_URandomNonblock linux64 16 (State.initial [])
        [.fail EAGAIN, .ok 3, .stat 1 2, .ok 16]
      = some (-1,
          ⟨true, ⟨-1, 0, 0⟩, false, [], EAGAIN, some (.OSError EAGAIN),
            [.getrandom 0 16 GRND_NONBLOCK (.fail EAGAIN)]⟩,
          [.ok 3, .stat 1 2, .ok 16])
    ∧ pyurandom linux64 16 false false (State.initial []) [.fail EAGAIN, .ok 3, .ok 16]
      = some (0,
          ⟨true, ⟨-1, 0, 0⟩, false, [], EAGAIN, none,
            [.getrandom 0 16 GRND_NONBLOCK (.fail EAGAIN), .openUrandom (.ok 3),
             .read 3 0 16 (.ok 16), .close 3]⟩, []) := by
  refine ⟨by decide, by decide⟩

/-- Witness for C10: three calls in a row; the first meets `EAGAIN` with
`blocking = 0`, `raise = 0` and leaves the flag set, the second meets `ENOSYS`
and clears it, the third issues no syscall; all three return `0`. -/
theorem getrandom_works_monotonic_witness :
    py_getrandom.calls linux64 [(8, false, false), (8, true, true), (8, true, true)]
        (State.initial []) [.fail EAGAIN, .fail ENOSYS, .ok 8]
      = some ([0, 0, 0],
          ⟨false, ⟨-1, 0, 0⟩, false, [], ENOSYS, none,
            [.getrandom 0 8 GRND_NONBLOCK (.fail EAGAIN), .getrandom 0 8 0 (.fail ENOSYS)]⟩,
          [.ok 8])
    ∧ py_getrandom.calls linux64 [(8, true, true), (4, false, false)]
        cachedState [.ok 8]
      = some (List.replicate 2 0, cachedState, [.ok 8]) :=
  ⟨by decide,
   (getrandom_works_monotonic linux64 [(8, true, true), (4, false, false)] cachedState
     [.ok 8]).2.1 rfl⟩

/-! ## `strtoul` and the seed override -/

theorem isdigit_not_isspace {c : Char} (h : isdigit c = true) : isspace c = false := by
  simp only [isdigit, Bool.and_eq_true, decide_eq_true_eq] at h
  simp only [isspace, Bool.or_eq_false_iff, decide_eq_false_iff_not, Bool.and_eq_false_iff]
  omega

theorem isdigit_ne_of {c d : Char} (h : isdigit c = true) (hd : isdigit d = false) : c ≠ d := by
  intro hc; rw [hc, hd] at h; cases h

theorem deref_cons (c : Char) (cs : List Char) : deref (c :: cs) = c := rfl

theorem strtoul.digits_numeral : ∀ (p : List Char) (acc : Nat), p.all isdigit = true →
    strtoul.digits p acc = (p.foldl (fun acc c => acc * 10 + (c.toNat - 48)) acc, [])
  | [], _, _ => rfl
  | c :: cs, acc, h => by
    simp only [List.all_cons, Bool.and_eq_true] at h
    simp only [strtoul.digits, h.1, if_true, List.foldl_cons]
    exact strtoul.digits_numeral cs _ h.2

theorem isNumeral_cons {p : List Char} (h : isNumeral p = true) :
    ∃ c cs, p = c :: cs ∧ isdigit c = true ∧ p.all isdigit = true := by
  cases p with
  | nil => simp [isNumeral] at h
  | cons c cs =>
    simp only [isNumeral, List.isEmpty_cons, Bool.not_false, Bool.true_and, List.all_cons,
      Bool.and_eq_true] at h
    exact ⟨c, cs, rfl, h.1, by simp [h.1, h.2]⟩

/-- On a plain numeral `strtoul` skips nothing. -/
theorem strtoul.afterSign_numeral {p : List Char} (h : isNumeral p = true) :
    p.dropWhile isspace = p ∧ strtoul.afterSign p = p := by
  obtain ⟨c, cs, rfl, hc, -⟩ := isNumeral_cons h
  have h1 : (c :: cs).dropWhile isspace = c :: cs := by
    simp [List.dropWhile, isdigit_not_isspace hc]
  refine ⟨h1, ?_⟩
  unfold strtoul.afterSign
  simp only [h1, deref_cons]
  rw [if_neg]
  intro h2
  rcases h2 with h2 | h2
  · exact isdigit_ne_of hc (by decide) h2
  · exact isdigit_ne_of hc (by decide) h2

/-- The result of `strtoul` on a plain numeral: its value, or `ULONG_MAX` with `ERANGE`. -/
theorem strtoul_numeral (M : Nat) (p : List Char) (errno : Int) (h : isNumeral p = true) :
    strtoul M p errno =
      if M < decimalValue p then (M, [], ERANGE) else (decimalValue p, [], errno) := by
  obtain ⟨h1, h2⟩ := strtoul.afterSign_numeral h
  obtain ⟨c, cs, rfl, hc, hall⟩ := isNumeral_cons h
  have hneg : deref (c :: cs) ≠ Char.ofNat 45 := isdigit_ne_of hc (by decide)
  unfold strtoul
  simp only [h1, h2, deref_cons, hc, if_true, strtoul.digits_numeral _ 0 hall]
  simp only [deref_cons] at hneg
  simp [hneg, decimalValue]

/-- A string without NUL is its own C string. -/
theorem cstr_eq_self {p : List Char} (h : Char.ofNat 0 ∉ p) : cstr p = p := by
  unfold cstr
  rw [List.takeWhile_eq_self_iff]
  intro c hc
  simp only [ne_eq, decide_eq_true_eq]
  intro h0
  exact h (h0 ▸ hc)

theorem numeral_no_nul {p : List Char} (h : isNumeral p = true) : Char.ofNat 0 ∉ p := by
  obtain ⟨c, cs, rfl, -, hall⟩ := isNumeral_cons h
  intro hmem
  rw [List.all_eq_true] at hall
  have := hall _ hmem
  revert this; decide

theorem numeral_ne_random {p : List Char} (h : isNumeral p = true) :
    p ≠ "random".toList := by
  obtain ⟨c, cs, rfl, hc, -⟩ := isNumeral_cons h
  intro hp
  have : c = 'r' := by
    have := congrArg List.head? hp
    simpa using this
  rw [this] at hc
  revert hc; decide

/-- The deterministic branch of `_PyRandom_Init` on a plain numeral in range:
it returns, having read the environment only, with the secret zeroed for the
value `0` and filled by `lcg_urandom` otherwise, provided `errno` is not a
stale `ERANGE` while the value is `ULONG_MAX`. -/
theorem PyRandom_Init_seed (P : Platform) (env : List Char) (s : State) (os : Script)
    (hun : s._Py_HashSecret_Initialized = false) (hnum : isNumeral env = true)
    (hv : decimalValue env ≤ 4294967295) (hP : 4294967295 ≤ P.ULONG_MAX)
    (hstale : s.errno ≠ ERANGE ∨ decimalValue env ≠ P.ULONG_MAX) :
    _PyRandom_Init P (some env) s os = some (.returned,
      { s with
        _Py_HashSecret_Initialized := true
        trace := s.trace ++ [.getenv]
        secret := if decimalValue env = 0 then memset s.secret 0 P.secret_size
          else lcg_urandom (decimalValue env) s.secret P.secret_size }, os) := by
  obtain ⟨c, cs, hcs, hc, -⟩ := isNumeral_cons hnum
  have hd : deref env ≠ Char.ofNat 0 := by
    rw [hcs, deref_cons]; exact isdigit_ne_of hc (by decide)
  have hr : cstr env ≠ "random".toList := by
    rw [cstr_eq_self (numeral_no_nul hnum)]; exact numeral_ne_random hnum
  have hle : ¬ P.ULONG_MAX < decimalValue env := by omega
  have hgt : ¬ decimalValue env > 4294967295 := by omega
  have hst : ¬ (s.errno = ERANGE ∧ decimalValue env = P.ULONG_MAX) := by
    rintro ⟨h1, h2⟩
    rcases hstale with h | h
    · exact h h1
    · exact h h2
  unfold _PyRandom_Init
  simp only [hun, Bool.false_eq_true, if_false, State.log, hd, hr, ne_eq, not_false_eq_true,
    and_self, if_true, strtoul_numeral _ _ _ hnum, hle]
  simp only [deref, List.headD_nil, not_true_eq_false, hgt, hst, or_self, if_false]
  split <;> rfl

/-- C4 fails at one input: on a build whose `unsigned long` has 32 bits,
entered with `errno == ERANGE` left over from an earlier library call, the
in-range override `"4294967295"` ends in the fatal error (`strtoul` returns
`ULONG_MAX` and `errno` is never cleared before the call); with `errno == 0`,
or with a 64-bit `unsigned long`, the same override is accepted and the secret
is `lcg_urandom(4294967295)`. -/
theorem PyRandom_Init_max_seed_stale_errno :
    InSeedRange "4294967295".toList
    ∧ _PyRandom_Init long32 (some "4294967295".toList)
        ⟨true, ⟨-1, 0, 0⟩, false, List.replicate 24 7, ERANGE, none, []⟩ []
      = some (.fatal seedMessage,
          ⟨true, ⟨-1, 0, 0⟩, true, List.replicate 24 7, ERANGE, none, [.getenv]⟩, [])
    ∧ _PyRandom_Init long32 (some "4294967295".toList)
        ⟨true, ⟨-1, 0, 0⟩, false, List.replicate 24 7, 0, none, []⟩ []
      = some (.returned,
          ⟨true, ⟨-1, 0, 0⟩, true, lcg_urandom 4294967295 (List.replicate 24 7) 24, 0, none,
            [.getenv]⟩, [])
    ∧ _PyRandom_Init linux64 (some "4294967295".toList)
        ⟨true, ⟨-1, 0, 0⟩, false, List.replicate 24 7, ERANGE, none, []⟩ []
      = some (.returned,
          ⟨true, ⟨-1, 0, 0⟩, true, lcg_urandom 4294967295 (List.replicate 24 7) 24, ERANGE,
            none, [.getenv]⟩, []) := by
  refine ⟨by decide, by decide, by decide, by decide⟩

theorem deref_ne_nul_of_mem {p : List Char} (hp : p ≠ []) (h : ∀ c ∈ p, c ≠ Char.ofNat 0) :
    deref p ≠ Char.ofNat 0 := by
  cases p with
  | nil => exact absurd rfl hp
  | cons c cs => exact h c (List.mem_cons_self _ _)

/-- What `strtoul` returns on a string of white space, an optional sign and
decimal digits only: the signed value, or `ULONG_MAX` with `ERANGE`. -/
theorem strtoul_signed_numeral (M : Nat) (env : List Char) (errno : Int)
    (h : isNumeral (strtoul.afterSign env) = true) :
    strtoul M env errno =
      if M < decimalValue (strtoul.afterSign env) then (M, [], ERANGE)
      else (signedValue M env, [], errno) := by
  obtain ⟨c, cs, hcs, hc, hall⟩ := isNumeral_cons h
  have hd : isdigit (deref (strtoul.afterSign env)) = true := by rw [hcs, deref_cons]; exact hc
  unfold strtoul
  simp only [hd, if_true, strtoul.digits_numeral _ 0 hall]
  by_cases hM : M < decimalValue (strtoul.afterSign env)
  · have hM' : M < List.foldl (fun acc c => acc * 10 + (c.toNat - 48)) 0
        (strtoul.afterSign env) := hM
    rw [if_pos hM', if_pos hM]
  · have hM' : ¬ M < List.foldl (fun acc c => acc * 10 + (c.toNat - 48)) 0
        (strtoul.afterSign env) := hM
    rw [if_neg hM', if_neg hM]
    by_cases hneg : deref (env.dropWhile isspace) = Char.ofNat 45
    · simp [hneg, signedValue, decimalValue]
    · simp [hneg, signedValue, decimalValue]

/-- Every base-10 unsigned integer in `[0, 4294967295]` is a string `strtoul`
converts in full to a value in range. -/
theorem InSeedRange.converted {M : Nat} {env : List Char} (hM : 4294967295 ≤ M)
    (h : InSeedRange env) : ConvertedInRange M env := by
  obtain ⟨h1, h2⟩ := strtoul.afterSign_numeral h.1
  obtain ⟨c, cs, hcs, hc, -⟩ := isNumeral_cons h.1
  have hneg : deref (env.dropWhile isspace) ≠ Char.ofNat 45 := by
    rw [h1, hcs, deref_cons]; exact isdigit_ne_of hc (by decide)
  refine ⟨by rw [h2]; exact h.1, by rw [h2]; exact le_trans h.2 hM, ?_⟩
  rw [signedValue, if_neg hneg, h2]
  exact h.2

/-- The strings left out of C5 (amended) are accepted: an override that
`strtoul` converts in full to a value in range makes `_PyRandom_Init` return
with the secret zeroed or filled by `lcg_urandom`, unless `errno` is a stale
`ERANGE` while the value is `ULONG_MAX`. -/
theorem PyRandom_Init_accepts_converted (P : Platform) (env : List Char) (s : State)
    (os : Script) (hun : s._Py_HashSecret_Initialized = false) (hnul : Char.ofNat 0 ∉ env)
    (hconv : ConvertedInRange P.ULONG_MAX env)
    (hstale : s.errno ≠ ERANGE ∨ signedValue P.ULONG_MAX env ≠ P.ULONG_MAX) :
    ∃ t, _PyRandom_Init P (some env) s os = some (.returned, t, os)
      ∧ t.secret = (if signedValue P.ULONG_MAX env = 0 then memset s.secret 0 P.secret_size
          else lcg_urandom (signedValue P.ULONG_MAX env) s.secret P.secret_size)
      ∧ newEvents s t = [.getenv] := by
  obtain ⟨hnum, hle, hin⟩ := hconv
  have hmem : ∀ c ∈ env, c ≠ Char.ofNat 0 := fun c hc h0 => hnul (h0 ▸ hc)
  have hne : env ≠ [] := by
    intro he
    rw [he] at hnum
    revert hnum; decide
  have hd : deref env ≠ Char.ofNat 0 := deref_ne_nul_of_mem hne hmem
  have hr : cstr env ≠ "random".toList := by
    rw [cstr_eq_self hnul]
    intro he
    rw [he] at hnum
    revert hnum; decide
  have hM : ¬ P.ULONG_MAX < decimalValue (strtoul.afterSign env) := by omega
  have hgt : ¬ signedValue P.ULONG_MAX env > 4294967295 := by omega
  have hst : ¬ (s.errno = ERANGE ∧ signedValue P.ULONG_MAX env = P.ULONG_MAX) := by
    rintro ⟨h1, h2⟩
    rcases hstale with h | h
    · exact h h1
    · exact h h2
  refine ⟨{ s with
      _Py_HashSecret_Initialized := true
      trace := s.trace ++ [.getenv]
      secret := if signedValue P.ULONG_MAX env = 0 then memset s.secret 0 P.secret_size
        else lcg_urandom (signedValue P.ULONG_MAX env) s.secret P.secret_size }, ?_, rfl,
    by simp [newEvents]⟩
  unfold _PyRandom_Init
  simp only [hun, Bool.false_eq_true, if_false, State.log, hd, hr, ne_eq, not_false_eq_true,
    and_self, if_true, strtoul_signed_numeral _ _ _ hnum, hM]
  simp only [deref, List.headD_nil, not_true_eq_false, hgt, hst, or_self, if_false]
  split <;> rfl

end PyRandom
